import Mathlib

/-!
# testdeploy: the web command (`cmd/web/main.go`)

A shallow embedding of the program's request routing, its two handlers, its
command line and its start/stop sequence, followed by the properties proved
about them.

The program is glue around three libraries.  What the program itself writes
(the route table, the fixed file names, the flag definitions, the order of the
calls in `main`) is transcribed from `main.go`.  What the libraries do with it
(`gorilla/mux` matching, `path.Clean`, `http.StripPrefix`, `http.FileServer`,
`http.Dir`, `flag`) is transcribed from the library functions that are called,
each definition naming the function it follows.  The template engine and the
duration syntax stay parameters; what `html/template` does with the literal
text of a template is written down separately, as the behaviour an engine has
to agree with.

Strings are handled as lists of characters.  All delimiters the code looks at
(`/`, `.`, `-`, `=`) are ASCII, so working on characters instead of bytes does
not change any decision taken by the code.
-/

namespace TestDeploy

/-! ## Paths: `path.Clean` and the router's `cleanPath` -/

/-- The pieces of a path between its slashes (`"/a//b"` gives `"", "a", "", "b"`). -/
def splitSlash : List Char → List (List Char)
  | [] => [[]]
  | c :: cs =>
    if c = '/' then [] :: splitSlash cs
    else
      match splitSlash cs with
      | [] => [[c]]
      | s :: ss => (c :: s) :: ss

/-- The pieces joined again with a slash between neighbours. -/
def joinSlash : List (List Char) → List Char
  | [] => []
  | [s] => s
  | s :: t :: ss => s ++ '/' :: joinSlash (t :: ss)

/-- One element of the path read by `path.Clean`, `out` being the elements
written so far: an empty element and `.` are skipped; `..` removes the last
element written when there is one to remove, is dropped at the root of a rooted
path and is kept at the start of a relative one; any other element is written. -/
def cleanStep (rooted : Bool) (out : List (List Char)) (seg : List Char) : List (List Char) :=
  if seg = [] then out
  else if seg = ['.'] then out
  else if seg = ['.', '.'] then
    match out.getLast? with
    | none => if rooted then out else out ++ [seg]
    | some l =>
      if l = ['.', '.'] then (if rooted then out.dropLast else out ++ [seg])
      else out.dropLast
  else out ++ [seg]

/-- Go `path.Clean` (also `filepath.Clean` where the separator is `/`): the
shortest path equivalent to `p` by lexical processing; `"."` for an empty
result. -/
def Clean (p : List Char) : List Char :=
  match p with
  | [] => ['.']
  | c :: _ =>
    let rooted : Bool := c = '/'
    let out := (splitSlash p).foldl (cleanStep rooted) []
    if rooted then '/' :: joinSlash out
    else if out = [] then ['.'] else joinSlash out

/-- The router's `cleanPath` (gorilla/mux, borrowed from net/http): the
canonical form of a request path, a trailing slash being kept. -/
def cleanPath (p : List Char) : List Char :=
  match p with
  | [] => ['/']
  | c :: _ =>
    let p1 := if c ≠ '/' then '/' :: p else p
    let np := Clean p1
    if p1.getLast? = some '/' ∧ np ≠ ['/'] then np ++ ['/'] else np

/-! ## Requests, handlers and the route table -/

/-- The parts of an incoming request the program can look at.  `path` is the
decoded path of the URL (`URL.Path`); `rawPath` is its escaped form
(`URL.RawPath`), which the URL carries only when it differs from the default
escaping of `path`, and is empty otherwise. -/
structure Request where
  method : String
  path : String
  rawPath : String
  query : String
  header : List (String × String)
  body : String
deriving DecidableEq, Repr

/-- The handlers that `routes` can hand to the router. -/
inductive Handler where
  | home
  | FileServer (root : String)
  | StripPrefix (pfx : String) (h : Handler)
deriving DecidableEq, Repr

/-- A matcher attached to a route: `Path` (the whole path), `PathPrefix`, or
`Methods`. -/
inductive Matcher where
  | path (tpl : String)
  | pathPrefix (tpl : String)
  | methods (ms : List String)
deriving DecidableEq, Repr

/-- A route of the router: its matchers in the order they were added and its
handler. -/
structure Route where
  matchers : List Matcher
  handler : Option Handler
deriving DecidableEq, Repr

/-- The router: its routes in registration order. -/
structure Router where
  routes : List Route
deriving DecidableEq, Repr

/-- The two match errors of the router. -/
inductive MatchErr where
  | ErrMethodMismatch
  | ErrNotFound
deriving DecidableEq, Repr

/-- The match record filled in while routes are tried. -/
structure RouteMatch where
  handler : Option Handler
  matchErr : Option MatchErr
deriving DecidableEq, Repr

/-- Go `mux.NewRouter()`. -/
def NewRouter : Router := ⟨[]⟩

/-- Go `r.NewRoute()`: an empty route. -/
def NewRoute : Route := ⟨[], none⟩

/-- Go `route.Path(tpl)`. -/
def Route.Path (rt : Route) (tpl : String) : Route :=
  { rt with matchers := rt.matchers ++ [Matcher.path tpl] }

/-- Go `route.PathPrefix(tpl)`. -/
def Route.PathPrefix (rt : Route) (tpl : String) : Route :=
  { rt with matchers := rt.matchers ++ [Matcher.pathPrefix tpl] }

/-- Go `route.Methods(ms...)`. -/
def Route.Methods (rt : Route) (ms : List String) : Route :=
  { rt with matchers := rt.matchers ++ [Matcher.methods ms] }

/-- Go `route.Handler(h)` and `route.HandlerFunc(f)`. -/
def Route.Handler (rt : Route) (h : Handler) : Route :=
  { rt with handler := some h }

/-- Registration of a finished route with the router. -/
def Router.register (r : Router) (rt : Route) : Router :=
  ⟨r.routes ++ [rt]⟩

/-- The function `routes` of `main.go`. -/
def routes : Router :=
  let r := NewRouter
  -- r.HandleFunc("/", home).Methods("GET")
  let r := r.register (((NewRoute.Path "/").Handler Handler.home).Methods ["GET"])
  -- fileServer := http.FileServer(http.Dir("./ui/static/"))
  let fileServer := Handler.FileServer "./ui/static/"
  -- r.PathPrefix("/static/").Handler(http.StripPrefix("/static/", fileServer))
  let r := r.register ((NewRoute.PathPrefix "/static/").Handler (Handler.StripPrefix "/static/" fileServer))
  r

/-! ## Matching (gorilla/mux) -/

/-- Whether one matcher accepts the request.  The templates of this program
hold no variables, so `Path` is equality with the template and `PathPrefix` is
a textual prefix test; `Methods` looks the method up in its list. -/
def Matcher.Match (m : Matcher) (req : Request) : Bool :=
  match m with
  | .path tpl => req.path = tpl
  | .pathPrefix tpl => tpl.data.isPrefixOf req.path.data
  | .methods ms => ms.contains req.method

/-- Whether the matcher is a method matcher. -/
def Matcher.isMethodMatcher : Matcher → Bool
  | .methods _ => true
  | _ => false

/-- The loop of `Route.Match` over the matchers.  The result is `none` when the
loop leaves with `return false` (the match record as it then stands), else the
match record and the local `matchErr` at the end of the loop. -/
def Route.matchLoop (req : Request) :
    List Matcher → RouteMatch → Option MatchErr → (RouteMatch × Option (Option MatchErr))
  | [], m, matchErr => (m, some matchErr)
  | mt :: rest, m, matchErr =>
    if mt.Match req then
      let m1 := if m.matchErr = some .ErrMethodMismatch then { m with matchErr := none } else m
      Route.matchLoop req rest m1 matchErr
    else if mt.isMethodMatcher then
      Route.matchLoop req rest m (some .ErrMethodMismatch)
    else
      let m1 := if m.matchErr = some .ErrNotFound then { m with matchErr := none } else m
      (m1, none)

/-- Go `Route.Match`: whether the route accepts the request, with the updated
match record. -/
def Route.Match (rt : Route) (req : Request) (m : RouteMatch) : Bool × RouteMatch :=
  match Route.matchLoop req rt.matchers m none with
  | (m1, none) => (false, m1)
  | (m1, some (some e)) => (false, { m1 with matchErr := some e })
  | (m1, some none) =>
    let m2 :=
      if m1.matchErr = some .ErrMethodMismatch ∧ rt.handler ≠ none then
        { handler := rt.handler, matchErr := none }
      else m1
    let m3 := if m2.handler = none then { m2 with handler := rt.handler } else m2
    (true, m3)

/-- The loop of `Router.Match` over the routes: the first route that accepts
the request wins. -/
def Router.matchRoutes (req : Request) : List Route → RouteMatch → Bool × RouteMatch
  | [], m => (false, m)
  | rt :: rest, m =>
    match rt.Match req m with
    | (true, m1) => (true, m1)
    | (false, m1) => Router.matchRoutes req rest m1

/-- Go `Router.Match`.  The router of this program has neither a
`MethodNotAllowedHandler` nor a `NotFoundHandler` of its own. -/
def Router.Match (r : Router) (req : Request) (m : RouteMatch) : Bool × RouteMatch :=
  match Router.matchRoutes req r.routes m with
  | (true, m1) => (true, m1)
  | (false, m1) =>
    if m1.matchErr = some .ErrMethodMismatch then (false, m1)
    else (false, { m1 with matchErr := some .ErrNotFound })

/-- What the router does with a request. -/
inductive Dispatch where
  /-- Status 301 with `Location` the request URL, its path replaced by `path`. -/
  | movedPermanently (path : String)
  /-- The handler of the matched route is called. -/
  | serve (h : Handler)
  /-- Status 405, from the router's default method-not-allowed handler. -/
  | methodNotAllowed
  /-- Status 404, from `http.NotFoundHandler()`. -/
  | notFound
deriving DecidableEq, Repr

/-- Go `Router.ServeHTTP`: a path that is not in canonical form is answered with a
redirect to its canonical form before any route is tried (the router is used
with its default, `skipClean` false); otherwise the request goes to the matched
handler, to 405 on a method mismatch, to 404 when nothing matched. -/
def Router.ServeHTTP (r : Router) (req : Request) : Dispatch :=
  let p := cleanPath req.path.data
  if p ≠ req.path.data then .movedPermanently (String.mk p)
  else
    match r.Match req ⟨none, none⟩ with
    | (true, m) =>
      match m.handler with
      | some h => .serve h
      | none => if m.matchErr = some .ErrMethodMismatch then .methodNotAllowed else .notFound
    | (false, m) =>
      if m.matchErr = some .ErrMethodMismatch then .methodNotAllowed else .notFound

/-! ## The response writer -/

/-- The state of a `http.ResponseWriter`: the status once it has been written,
the header fields set by the handler, and the body bytes written so far. -/
structure ResponseWriter where
  status : Option Nat
  header : List (String × String)
  body : List Char
deriving DecidableEq, Repr

/-- A fresh writer, as the server hands it to the handler. -/
def ResponseWriter.fresh : ResponseWriter := ⟨none, [], []⟩

/-- Go `w.Header().Set(k, v)`; it has no effect once the status is written. -/
def ResponseWriter.SetHeader (w : ResponseWriter) (k v : String) : ResponseWriter :=
  match w.status with
  | none => { w with header := (w.header.filter (fun kv => kv.1 ≠ k)) ++ [(k, v)] }
  | some _ => w

/-- Go `w.WriteHeader(code)`; only the first call counts. -/
def ResponseWriter.WriteHeader (w : ResponseWriter) (code : Nat) : ResponseWriter :=
  match w.status with
  | none => { w with status := some code }
  | some _ => w

/-- Go `w.Write(b)`: the first write sends status 200 when none was sent. -/
def ResponseWriter.Write (w : ResponseWriter) (b : List Char) : ResponseWriter :=
  let w1 := w.WriteHeader 200
  { w1 with body := w1.body ++ b }

/-- Go `http.Error(w, msg, code)`. -/
def httpError (w : ResponseWriter) (msg : String) (code : Nat) : ResponseWriter :=
  let w := w.SetHeader "Content-Type" "text/plain; charset=utf-8"
  let w := w.SetHeader "X-Content-Type-Options" "nosniff"
  let w := w.WriteHeader code
  w.Write (msg.data ++ ['\n'])

/-- Go `http.NotFound(w, r)`. -/
def NotFound (w : ResponseWriter) : ResponseWriter :=
  httpError w "404 page not found" 404

/-- The response as the client sees it once the handler has returned: a handler
that wrote nothing still answers 200. -/
structure Response where
  status : Nat
  header : List (String × String)
  body : List Char
deriving DecidableEq, Repr

/-- The server finishing the response after the handler has returned. -/
def ResponseWriter.finish (w : ResponseWriter) : Response :=
  ⟨w.status.getD 200, w.header, w.body⟩

/-- How a handler call ends: it returns, or it panics (the writer as it stood
at that moment). -/
inductive Outcome where
  | returned (w : ResponseWriter)
  | panicked (w : ResponseWriter)
deriving DecidableEq, Repr

/-! ## The world outside: files and the template engine -/

/-- Why a file could not be opened. -/
inductive OpenErr where
  | notExist
  | permission
  | other
deriving DecidableEq, Repr

/-- What opening a name gives: an error, a regular file with its contents, or a
directory with its entries. -/
inductive Opened where
  | err (e : OpenErr)
  | file (content : List Char)
  | dir (entries : List String)
deriving DecidableEq, Repr

/-- The file system, seen through `os.Open` by name. -/
abbrev FileSystem := List Char → Opened

/-- The data handed to `Execute`. -/
inductive TemplateData where
  | nil
  | value (v : String)
deriving DecidableEq, Repr

/-- The template library (`html/template`), kept abstract: `parse` turns the
text of a template file into a template or fails on malformed text, `execute`
gives the bytes that executing a template writes (its error, which `home`
ignores, is not represented). -/
structure TemplateEngine where
  Template : Type
  parse : List Char → Option Template
  execute : Template → TemplateData → List Char

/-- The parts of net/http that depend on more than the route and are kept
abstract: how a regular file is sent (`serveContent`: status, ranges,
conditional headers), how a directory is listed (`dirList`), and the text of
the request URL with its path replaced by a given one (`location`, the result
of `url.String()`: the path escaped, the query, and scheme and host when the
request line carried them). -/
structure FileSender where
  serveContent : Request → List Char → ResponseWriter → ResponseWriter
  dirList : Request → List String → ResponseWriter → ResponseWriter
  location : Request → String → String

/-- Everything a handler can reach. -/
structure Env where
  eng : TemplateEngine
  fs : FileSystem
  send : FileSender

/-- Go `template.ParseFiles(name)`: reads the file, then parses its text; fails
when the file cannot be read or the text is malformed. -/
def ParseFiles (eng : TemplateEngine) (fs : FileSystem) (name : String) : Option eng.Template :=
  match fs name.data with
  | .file content => eng.parse content
  | _ => none

/-- The handler `home` of `main.go`: `template.Must` panics when `ParseFiles`
failed; otherwise the template is executed into `w` with `nil` data and the
result of `Execute` is dropped. -/
def home (env : Env) (w : ResponseWriter) (_r : Request) : Outcome :=
  match ParseFiles env.eng env.fs "./ui/html/index.html" with
  | none => .panicked w
  | some tmpl =>
    match env.eng.execute tmpl .nil with
    | [] => .returned w
    | out => .returned (w.Write out)

/-! ## The static file server (net/http) -/

/-- Go `filepath.Join(dir, p)` for a non-empty `dir`: the two joined by a
separator, then cleaned. -/
def filepathJoin (dir p : List Char) : List Char :=
  Clean (dir ++ '/' :: p)

/-- The name `http.Dir(dir).Open(name)` hands to `os.Open`. -/
def Dir.fullName (dir : List Char) (name : List Char) : List Char :=
  let dir := if dir = [] then ['.'] else dir
  filepathJoin dir (Clean ('/' :: name))

/-- Go `http.Dir(dir).Open(name)`. -/
def Dir.Open (fs : FileSystem) (dir : List Char) (name : List Char) : Opened :=
  fs (Dir.fullName dir name)

/-- Go `path.Base`: the last element of a path, trailing slashes removed. -/
def Base (p : List Char) : List Char :=
  if p = [] then ['.']
  else
    match (splitSlash p).reverse.dropWhile (fun s => s = []) with
    | [] => ['/']
    | s :: _ => s

/-- Go `localRedirect`: 301 to a path relative to the request, the query kept. -/
def localRedirect (w : ResponseWriter) (r : Request) (newPath : List Char) : ResponseWriter :=
  let loc := if r.query ≠ "" then newPath ++ '?' :: r.query.data else newPath
  (w.SetHeader "Location" (String.mk loc)).WriteHeader 301

/-- Go `toHTTPError` followed by `http.Error`. -/
def openError (w : ResponseWriter) (e : OpenErr) : ResponseWriter :=
  match e with
  | .notExist => httpError w "404 page not found" 404
  | .permission => httpError w "403 Forbidden" 403
  | .other => httpError w "500 Internal Server Error" 500

/-- Go `serveFile(w, r, http.Dir(root), name, true)`. -/
def serveFile (env : Env) (root : List Char) (w : ResponseWriter) (r : Request)
    (name : List Char) : ResponseWriter :=
  let url := r.path.data
  -- redirect .../index.html to .../
  if "/index.html".data.isSuffixOf url then localRedirect w r "./".data
  else
    match Dir.Open env.fs root name with
    | .err e => openError w e
    | .file content =>
      -- a file is not addressed with a trailing slash
      if url.getLast? = some '/' then
        if Base url = ['/'] ∨ Base url = ['.'] then
          httpError w "http: attempt to traverse a non-directory" 500
        else localRedirect w r ("../".data ++ Base url)
      else env.send.serveContent r content w
    | .dir entries =>
      -- a directory is addressed with a trailing slash
      if url.getLast? ≠ some '/' then localRedirect w r (Base url ++ ['/'])
      else
        -- use contents of index.html for directory, if present
        let name1 := if name.getLast? = some '/' then name.dropLast else name
        match Dir.Open env.fs root (name1 ++ "/index.html".data) with
        | .file content => env.send.serveContent r content w
        | .dir entries1 => env.send.dirList r entries1 w
        | .err _ => env.send.dirList r entries w

/-- Go `http.FileServer(http.Dir(root))`: the request path, made to start with a
slash and cleaned, is the name to serve. -/
def FileServer (env : Env) (root : String) (w : ResponseWriter) (r : Request) : ResponseWriter :=
  let upath := r.path.data
  let upath := if ¬ ("/".data.isPrefixOf upath) then '/' :: upath else upath
  serveFile env root.data w { r with path := String.mk upath } (Clean upath)

/-- Go `strings.TrimPrefix`. -/
def TrimPrefix (s pfx : String) : String :=
  if pfx.data.isPrefixOf s.data then String.mk (s.data.drop pfx.data.length) else s

/-- All handlers of the program.  `http.StripPrefix(pfx, h)` hands the request
on as it is for an empty `pfx`; otherwise it trims `pfx` from the decoded path
and from the escaped path, calls `h` with both trimmed when the decoded path
got shorter and the escaped path is empty or got shorter too, and answers 404
when not. -/
def Handler.ServeHTTP (env : Env) : Handler → ResponseWriter → Request → Outcome
  | .home, w, r => TestDeploy.home env w r
  | .FileServer root, w, r => .returned (TestDeploy.FileServer env root w r)
  | .StripPrefix pfx h, w, r =>
    if pfx = "" then h.ServeHTTP env w r
    else
      let p := TrimPrefix r.path pfx
      let rp := TrimPrefix r.rawPath pfx
      if p.data.length < r.path.data.length
          ∧ (r.rawPath = "" ∨ rp.data.length < r.rawPath.data.length) then
        h.ServeHTTP env w { r with path := p, rawPath := rp }
      else .returned (NotFound w)

/-- The redirect written by `Router.ServeHTTP`: status 301 with `Location` the
text of the request URL, its path replaced by `p`. -/
def redirectTo (send : FileSender) (w : ResponseWriter) (req : Request) (p : String) :
    ResponseWriter :=
  (w.SetHeader "Location" (send.location req p)).WriteHeader 301

/-- The whole answer of the router to a request, on a fresh writer. -/
def Router.respond (env : Env) (rt : Router) (req : Request) : Outcome :=
  let w := ResponseWriter.fresh
  match rt.ServeHTTP req with
  | .movedPermanently p => .returned (redirectTo env.send w req p)
  | .serve h => h.ServeHTTP env w req
  | .methodNotAllowed => .returned (w.WriteHeader 405)
  | .notFound => .returned (NotFound w)

/-- A request with the given method and path and nothing else. -/
def mkReq (method path : String) : Request := ⟨method, path, "", "", [], ""⟩

/-- A request whose URL carries an escaped path besides the decoded one. -/
def mkRawReq (method path rawPath : String) : Request := ⟨method, path, rawPath, "", [], ""⟩

/-- The handler of the static route. -/
def staticHandler : Handler := .StripPrefix "/static/" (.FileServer "./ui/static/")

/-- Whether the request path lies under the static route. -/
def underStatic (req : Request) : Prop := "/static/".data.isPrefixOf req.path.data = true

instance (req : Request) : Decidable (underStatic req) := by
  unfold underStatic; infer_instance

/-- Whether the request path is in the router's canonical form. -/
def canonical (req : Request) : Prop := cleanPath req.path.data = req.path.data

instance (req : Request) : Decidable (canonical req) := by
  unfold canonical; infer_instance

/-! ## The command line (package `flag`) -/

/-- The value held by a flag: a string or a duration in nanoseconds. -/
inductive FlagValue where
  | str (s : String)
  | dur (d : Int)
deriving DecidableEq, Repr

/-- A defined flag with its current value. -/
structure Flag where
  name : String
  value : FlagValue
deriving DecidableEq, Repr

deriving instance DecidableEq for Except

/-- Why parsing the command line failed. -/
inductive FlagErr where
  | badSyntax (arg : String)
  | help
  | notDefined (name : String)
  | needsArgument (name : String)
  | invalidValue (value name : String)
deriving DecidableEq, Repr

/-- A flag set: the defined flags (`formal`), the names of the flags that were
set while parsing (`actual`), and the arguments left after the flags. -/
structure FlagSet where
  formal : List Flag
  actual : List String
  args : List String
deriving DecidableEq, Repr

/-- A flag set with no flag defined. -/
def FlagSet.empty : FlagSet := ⟨[], [], []⟩

/-- Go `flag.String(name, value, usage)`. -/
def flagString (f : FlagSet) (name value : String) : FlagSet :=
  { f with formal := f.formal ++ [⟨name, .str value⟩] }

/-- Go `flag.Duration(name, value, usage)`. -/
def flagDuration (f : FlagSet) (name : String) (value : Int) : FlagSet :=
  { f with formal := f.formal ++ [⟨name, .dur value⟩] }

/-- The flag of that name, as `f.formal[name]`. -/
def FlagSet.lookup (f : FlagSet) (name : String) : Option Flag :=
  f.formal.find? (fun fl => fl.name = name)

/-- Go `flag.Value.Set`: a string flag takes any text, a duration flag the texts
that `time.ParseDuration` (the parameter `pd`) accepts. -/
def FlagValue.Set (pd : String → Option Int) : FlagValue → String → Option FlagValue
  | .str _, s => some (.str s)
  | .dur _, s => (pd s).map .dur

/-- The flag set after flag `name` received `v`. -/
def FlagSet.assign (f : FlagSet) (name : String) (v : FlagValue) : FlagSet :=
  { f with
    formal := f.formal.map (fun fl => if fl.name = name then { fl with value := v } else fl)
    actual := if name ∈ f.actual then f.actual else f.actual ++ [name] }

/-- What the first characters of an argument say about it. -/
inductive FlagToken where
  /-- Not a flag: shorter than two characters or not starting with `-`. -/
  | notFlag
  /-- The argument `--`, which ends the flags. -/
  | terminator
  /-- Bad flag syntax. -/
  | bad
  /-- A flag with its name and, when written `name=value`, its value. -/
  | flag (name : List Char) (value : Option (List Char))
deriving DecidableEq, Repr

/-- The name cut at its first `=` that is not its first character. -/
def cutAtEquals : List Char → List Char × Option (List Char)
  | [] => ([], none)
  | c :: cs =>
    match cs.span (fun x => x ≠ '=') with
    | (a, _ :: v) => (c :: a, some v)
    | (_, []) => (c :: cs, none)

/-- The first part of `parseOne`: the syntax of one argument. -/
def flagToken (s : List Char) : FlagToken :=
  match s with
  | c0 :: c1 :: rest =>
    if c0 ≠ '-' then .notFlag
    else if c1 = '-' ∧ rest = [] then .terminator
    else
      let name := if c1 = '-' then rest else c1 :: rest
      match name with
      | [] => .bad
      | n0 :: _ =>
        if n0 = '-' ∨ n0 = '=' then .bad
        else
          let (nm, v) := cutAtEquals name
          .flag nm v
  | _ => .notFlag

/-- Go `FlagSet.Parse`: `parseOne` repeated until an argument is not a flag.  A
flag of this program is never boolean, so a flag written without `=value` takes
the next argument as its value. -/
def FlagSet.parseLoop (pd : String → Option Int) (f : FlagSet) :
    List String → Except FlagErr FlagSet
  | [] => .ok { f with args := [] }
  | s :: rest =>
    match flagToken s.data with
    | .notFlag => .ok { f with args := s :: rest }
    | .terminator => .ok { f with args := rest }
    | .bad => .error (.badSyntax s)
    | .flag nm v =>
      let name := String.mk nm
      match f.lookup name with
      | none =>
        if name = "help" ∨ name = "h" then .error .help else .error (.notDefined name)
      | some fl =>
        match v with
        | some value =>
          match fl.value.Set pd (String.mk value) with
          | none => .error (.invalidValue (String.mk value) name)
          | some fv => FlagSet.parseLoop pd (f.assign name fv) rest
        | none =>
          match rest with
          | [] => .error (.needsArgument name)
          | value :: rest1 =>
            match fl.value.Set pd value with
            | none => .error (.invalidValue value name)
            | some fv => FlagSet.parseLoop pd (f.assign name fv) rest1

/-- Go `FlagSet.Parse(arguments)`. -/
def FlagSet.Parse (pd : String → Option Int) (f : FlagSet) (arguments : List String) :
    Except FlagErr FlagSet :=
  FlagSet.parseLoop pd f arguments

/-- The constant `time.Second`, in nanoseconds. -/
def Second : Int := 1000000000

/-- The four flag definitions of `main`, in the order of the source. -/
def CommandLine : FlagSet :=
  let f := FlagSet.empty
  -- addr := flag.String("addr", ":4000", ...)
  let f := flagString f "addr" ":4000"
  -- wait := flag.Duration("wait", time.Second*15, ...)
  let f := flagDuration f "wait" (Second * 15)
  -- certFile := flag.String("cert-file", "", ...)
  let f := flagString f "cert-file" ""
  -- keyFile := flag.String("key-file", "", ...)
  let f := flagString f "key-file" ""
  f

/-- The value behind a `*string` flag variable. -/
def FlagSet.stringVar (f : FlagSet) (name : String) : String :=
  match f.lookup name with
  | some ⟨_, .str s⟩ => s
  | _ => ""

/-- The value behind a `*time.Duration` flag variable. -/
def FlagSet.durationVar (f : FlagSet) (name : String) : Int :=
  match f.lookup name with
  | some ⟨_, .dur d⟩ => d
  | _ => 0

/-- A duration syntax that knows whole seconds written `<digits>s`. -/
def secondsOnly (s : String) : Option Int :=
  match s.data.reverse with
  | 's' :: ds =>
    if ds ≠ [] ∧ ds.all Char.isDigit then
      some (Second * (ds.reverse.foldl (fun n c => 10 * n + (c.toNat - 48)) 0 : Nat))
    else none
  | _ => none

/-! ## The start/stop sequence of `main` -/

/-- The curves named in the TLS settings. -/
inductive CurveID where
  | X25519
  | CurveP256
deriving DecidableEq, Repr

/-- The TLS settings `main` builds. -/
structure TLSConfig where
  PreferServerCipherSuites : Bool
  CurvePreferences : List CurveID
deriving DecidableEq, Repr

/-- The `http.Server` value `main` builds; durations in nanoseconds. -/
structure Server where
  Addr : String
  Handler : Router
  IdleTimeout : Int
  ReadTimeout : Int
  WriteTimeout : Int
  TLSConfig : TLSConfig
deriving DecidableEq, Repr

/-- The signals the comment in `main` speaks of; `os.Interrupt` is `SIGINT`. -/
inductive Signal where
  | SIGINT
  | SIGKILL
  | SIGQUIT
  | SIGTERM
deriving DecidableEq, Repr

/-- What the process does that can be seen from outside. -/
inductive Effect where
  | infoLog (msg : String)
  | errorLog (msg : String)
  | ListenAndServeTLS (addr certFile keyFile : String)
  | Notify (sig : Signal)
  | Shutdown (timeout : Int)
  | Exit (code : Nat)
deriving DecidableEq, Repr

/-- Where the main flow stands.  `usage` is the exit taken by `flag.Parse` on a
command line it rejects; `killed` is the end by a signal nobody catches. -/
inductive Phase where
  | starting
  | usage (code : Nat)
  | serving
  | shuttingDown
  | stopped (code : Nat)
  | killed (sig : Signal)
deriving DecidableEq, Repr

/-- The process: the phase of the main flow, the parsed flags and the server
once they exist, what the main flow did so far (`main`) and what the goroutine
started by `go func()` did so far (`background`). -/
structure Proc where
  phase : Phase
  flags : Option FlagSet
  srv : Option Server
  main : List Effect
  background : List Effect
deriving DecidableEq, Repr

/-- What reaches the process from outside: its start with a command line, a
signal, the return of `ListenAndServeTLS` in the goroutine (its error is never
nil), the return of `srv.Shutdown`. -/
inductive Event where
  | exec (args : List String)
  | signal (s : Signal)
  | listenReturned (err : String)
  | shutdownReturned (err : Option String)
deriving DecidableEq, Repr

/-- The process before `main` runs. -/
def Proc.init : Proc := ⟨.starting, none, none, [], []⟩

/-- The server value of `main`, from the parsed flags. -/
def mkServer (f : FlagSet) : Server where
  Addr := f.stringVar "addr"
  Handler := routes
  IdleTimeout := 60 * Second
  ReadTimeout := 5 * Second
  WriteTimeout := 10 * Second
  TLSConfig := ⟨true, [.X25519, .CurveP256]⟩

/-- The part of `main` from its first line to the receive `<-c`: the flags are parsed
(`flag.Parse` leaves with status 0 after `-h` or `-help` and with 2 after any
other error), the server is built, the goroutine logs and calls
`srv.ListenAndServeTLS(*certFile, *keyFile)`, and the main flow registers for
`os.Interrupt`. -/
def Proc.start (pd : String → Option Int) (p : Proc) (args : List String) : Proc :=
  match CommandLine.Parse pd args with
  | .error e =>
    let code := if e = .help then 0 else 2
    { p with phase := .usage code, main := p.main ++ [.Exit code] }
  | .ok f =>
    let srv := mkServer f
    { phase := .serving
      flags := some f
      srv := some srv
      main := p.main ++ [.Notify .SIGINT]
      background := p.background ++
        [.infoLog ("Test Deploy v1.0.0 listening on " ++ f.stringVar "addr"),
         .ListenAndServeTLS srv.Addr (f.stringVar "cert-file") (f.stringVar "key-file")] }

/-- The part of `main` from the receive `<-c` on: a context with the timeout `*wait` is
made and `srv.Shutdown(ctx)` is called. -/
def Proc.interrupt (p : Proc) : Proc :=
  match p.flags with
  | some f => { p with phase := .shuttingDown,
                       main := p.main ++ [.Shutdown (f.durationVar "wait")] }
  | none => p

/-- The part of `main` after `srv.Shutdown(ctx)` has returned: its result is dropped, a
line is logged, and `os.Exit(0)` ends the process. -/
def Proc.afterShutdown (p : Proc) (_err : Option String) : Proc :=
  { p with phase := .stopped 0,
           main := p.main ++ [.infoLog "shutting down...", .Exit 0] }

/-- The goroutine after `ListenAndServeTLS` has returned: the error is written
to the error log. -/
def Proc.listenFailed (p : Proc) (err : String) : Proc :=
  { p with background := p.background ++ [.errorLog err] }

/-- One step of the process.  Only `SIGINT` is relayed to the channel; before
`signal.Notify` ran, and for every other signal, the signal ends the process.
An event that cannot occur in a phase leaves the process as it is. -/
def step (pd : String → Option Int) (p : Proc) (e : Event) : Proc :=
  match p.phase, e with
  | .starting, .exec args => p.start pd args
  | .starting, .signal s => { p with phase := .killed s }
  | .serving, .signal .SIGINT => p.interrupt
  | .serving, .signal s => { p with phase := .killed s }
  | .serving, .listenReturned err => p.listenFailed err
  | .shuttingDown, .signal .SIGINT => p
  | .shuttingDown, .signal s => { p with phase := .killed s }
  | .shuttingDown, .listenReturned err => p.listenFailed err
  | .shuttingDown, .shutdownReturned err => p.afterShutdown err
  | _, _ => p

/-- The process after a sequence of events. -/
def run (pd : String → Option Int) (p : Proc) (es : List Event) : Proc :=
  es.foldl (step pd) p

/-- The function `main` of `main.go` as a process: started fresh and driven by
the events that reach it. -/
def main (pd : String → Option Int) (es : List Event) : Proc :=
  run pd Proc.init es

/-- The timeouts of the `Shutdown` calls among some effects, in order. -/
def shutdownCalls : List Effect → List Int
  | [] => []
  | .Shutdown t :: rest => t :: shutdownCalls rest
  | _ :: rest => shutdownCalls rest

/-- The main flow of a process: everything but the goroutine's effects. -/
def Proc.mainView (p : Proc) : Phase × Option FlagSet × Option Server × List Effect :=
  (p.phase, p.flags, p.srv, p.main)

/-- Whether an event is the return of `ListenAndServeTLS`. -/
def Event.isListenReturned : Event → Bool
  | .listenReturned _ => true
  | _ => false

/-! ## Sample surroundings, used to evaluate the handlers -/

/-- The kinds of element the escaper tells apart by the tag name. -/
inductive Element where
  | none
  | script
  | style
  | textarea
  | title
deriving DecidableEq, Repr

/-- Where the escaper stands while it reads the literal text of a template. -/
inductive HState where
  /-- Ordinary text. -/
  | text
  /-- After `<` of a comment opener, `k` characters of the opener still to pass. -/
  | commentOpen (k : Nat)
  /-- Inside an HTML comment. -/
  | comment
  /-- After the first `-` of a comment closer, `k` characters still to pass. -/
  | commentClose (k : Nat)
  /-- After `<` of an end tag, before its `/`. -/
  | tagSlash
  /-- Inside a tag name, `name` being the characters read so far, last first. -/
  | tagName (closing : Bool) (name : List Char)
  /-- Inside a tag, between attributes. -/
  | tag (e : Element)
  /-- Inside an attribute name. -/
  | attrName (e : Element)
  /-- After an attribute name. -/
  | afterName (e : Element)
  /-- After the `=` of an attribute. -/
  | beforeValue (e : Element)
  /-- Inside an attribute value closed by `delim`, or unquoted. -/
  | attrValue (e : Element) (delim : Option Char)
  /-- Inside a `title` or `textarea` element. -/
  | rcdata (e : Element)
  /-- The text is rejected (`stateError`). -/
  | failed
  /-- Inside a `script` or `style` element, whose content is not modelled. -/
  | unmodelled
deriving DecidableEq, Repr

/-- The white space of `eatWhiteSpace`. -/
def isSpace (c : Char) : Bool :=
  c = ' ' || c = '\t' || c = '\n' || c = '\x0c' || c = '\r'

/-- Go `asciiAlpha`. -/
def asciiAlpha (c : Char) : Bool :=
  ('A' ≤ c && c ≤ 'Z') || ('a' ≤ c && c ≤ 'z')

/-- Go `asciiAlphaNum`. -/
def asciiAlphaNum (c : Char) : Bool :=
  asciiAlpha c || ('0' ≤ c && c ≤ '9')

/-- An ASCII letter in upper case, any other character as it is. -/
def asciiUpper (c : Char) : Char :=
  if 'a' ≤ c ∧ c ≤ 'z' then Char.ofNat (c.toNat - 32) else c

/-- An ASCII letter in lower case, any other character as it is. -/
def asciiLower (c : Char) : Char :=
  if 'A' ≤ c ∧ c ≤ 'Z' then Char.ofNat (c.toNat + 32) else c

/-- Whether the text starts with a doctype, in any case of its letters. -/
def startsDoctype (s : List Char) : Bool :=
  "<!DOCTYPE".data.isPrefixOf (s.map asciiUpper)

/-- A `<` of the text as the escaper writes it in ordinary text and inside
`title` and `textarea`: as it is at the start of a doctype, `&lt;` otherwise. -/
def escapedLt (s : List Char) : List Char :=
  if startsDoctype s then ['<'] else "&lt;".data

/-- Go `elementTypeMap`, on a tag name in lower case. -/
def elementOf (name : List Char) : Element :=
  if name = "script".data then .script
  else if name = "style".data then .style
  else if name = "textarea".data then .textarea
  else if name = "title".data then .title
  else .none

/-- The name of a `title` or `textarea` element (`specialTagEndMarkers`). -/
def endMarker : Element → List Char
  | .textarea => "textarea".data
  | .title => "title".data
  | .script => "script".data
  | .style => "style".data
  | .none => []

/-- Whether the text starts with the end tag of element `e` (`indexTagEnd` at
this place): `</`, the name in any case, and one of the characters that may
follow a tag name. -/
def startsEndTag (e : Element) (s : List Char) : Bool :=
  match s with
  | '<' :: '/' :: r =>
    (endMarker e).isPrefixOf (r.map asciiLower)
      && (match r.drop (endMarker e).length with
          | x :: _ => x = '>' || x = ' ' || x = '\t' || x = '\n' || x = '\x0c' || x = '/'
          | [] => false)
  | _ => false

/-- One step of the escaper on the character `c`, `rest` being the text after
it: the next state, what is written for `c`, and whether `c` has been passed
(a step that only changes the state looks at `c` again). -/
def hStep (s : HState) (c : Char) (rest : List Char) : HState × List Char × Bool :=
  match s with
  | .text =>
    if c ≠ '<' then (.text, [c], true)
    else if "!--".data.isPrefixOf rest then (.commentOpen 3, [], true)
    else
      let r1 := match rest with
        | '/' :: r => r
        | _ => rest
      match r1 with
      | x :: _ =>
        if asciiAlpha x then
          (if rest.head? = some '/' then .tagSlash else .tagName false [], ['<'], true)
        else (.text, escapedLt (c :: rest), true)
      | [] => (.text, escapedLt (c :: rest), true)
  | .commentOpen k => (if k ≤ 1 then .comment else .commentOpen (k - 1), [], true)
  | .comment =>
    if "-->".data.isPrefixOf (c :: rest) then (.commentClose 2, [], true)
    else (.comment, [], true)
  | .commentClose k => (if k ≤ 1 then .text else .commentClose (k - 1), [], true)
  | .tagSlash => (.tagName true [], [c], true)
  | .tagName closing name =>
    if asciiAlphaNum c then (.tagName closing (c :: name), [c], true)
    else if (c = ':' ∨ c = '-') ∧ (rest.head?.map asciiAlphaNum = some true) then
      (.tagName closing (c :: name), [c], true)
    else
      (.tag (if closing then .none else elementOf (name.reverse.map asciiLower)), [], false)
  | .tag e =>
    if isSpace c then (.tag e, [c], true)
    else if c = '>' then
      (match e with
        | .none => .text
        | .textarea => .rcdata .textarea
        | .title => .rcdata .title
        | .script => .unmodelled
        | .style => .unmodelled, [c], true)
    else if c = '=' ∨ c = '\'' ∨ c = '"' ∨ c = '<' then (.failed, [], true)
    else (.attrName e, [c], true)
  | .attrName e =>
    if isSpace c ∨ c = '=' ∨ c = '>' then (.afterName e, [], false)
    else if c = '\'' ∨ c = '"' ∨ c = '<' then (.failed, [], true)
    else (.attrName e, [c], true)
  | .afterName e =>
    if isSpace c then (.afterName e, [c], true)
    else if c = '=' then (.beforeValue e, [c], true)
    else (.tag e, [], false)
  | .beforeValue e =>
    if isSpace c then (.beforeValue e, [c], true)
    else if c = '\'' ∨ c = '"' then (.attrValue e (some c), [c], true)
    else (.attrValue e none, [], false)
  | .attrValue e (some q) =>
    if c = q then (.tag e, [c], true) else (.attrValue e (some q), [c], true)
  | .attrValue e none =>
    if isSpace c ∨ c = '>' then (.tag e, [], false)
    else if c = '"' ∨ c = '\'' ∨ c = '<' ∨ c = '=' ∨ c = '\x60' then (.failed, [], true)
    else (.attrValue e none, [c], true)
  | .rcdata e =>
    if startsEndTag e (c :: rest) then (.text, [], false)
    else if c = '<' then (.rcdata e, escapedLt (c :: rest), true)
    else (.rcdata e, [c], true)
  | .failed => (.failed, [], true)
  | .unmodelled => (.unmodelled, [], true)

/-- The steps on one character until it has been passed; no more than three
steps in a row leave the character in place. -/
def hAdvance : Nat → HState → Char → List Char → HState × List Char
  | 0, _, _, _ => (.failed, [])
  | n + 1, s, c, rest =>
    match hStep s c rest with
    | (s1, out, true) => (s1, out)
    | (s1, _, false) => hAdvance n s1 c rest

/-- The escaper run over a text from a state: the state at the end and what
has been written. -/
def hRun : HState → List Char → HState × List Char
  | s, [] => (s, [])
  | s, c :: rest =>
    match hAdvance 4 s c rest with
    | (s1, out) =>
      match hRun s1 rest with
      | (s2, out2) => (s2, out ++ out2)

/-- What executing a template without actions writes. -/
inductive Rendered where
  /-- The text as the escaper leaves it. -/
  | written (out : List Char)
  /-- Nothing: the text ends outside ordinary text or is rejected, and
  `Execute` returns an error before it writes. -/
  | failed
  /-- Not determined here: the text holds a `script` or `style` element. -/
  | unmodelled
deriving DecidableEq, Repr

/-- The literal text of a template without actions as `html/template` writes
it. -/
def htmlText (src : List Char) : Rendered :=
  match hRun .text src with
  | (.text, out) => .written out
  | (.unmodelled, _) => .unmodelled
  | _ => .failed

/-- A template engine that takes every text as a template and writes it as
`htmlText` gives it, nothing where `htmlText` gives no text. -/
def commentEngine : TemplateEngine where
  Template := List Char
  parse := fun src => some src
  execute := fun t _ =>
    match htmlText t with
    | .written out => out
    | _ => []

/-- A file sender that writes a file as it is and lists a directory by its
entry names; its `location` is right for a request in origin form whose new
path needs no escaping. -/
def plainSender : FileSender where
  serveContent := fun _ content w => w.Write content
  dirList := fun _ entries w => w.Write (entries.foldl (fun acc e => acc ++ e.data ++ ['\n']) [])
  location := fun req p => if req.query ≠ "" then p ++ "?" ++ req.query else p

/-- A file system with a home page and one style sheet under the static root. -/
def sampleFS : FileSystem := fun name =>
  if name = "./ui/html/index.html".data then .file "<!-- draft -->Hello".data
  else if name = "ui/static/app.css".data then .file "body \x7b\x7d".data
  else if name = "ui/static".data then .dir ["app.css"]
  else .err .notExist

/-- The sample surroundings. -/
def sampleEnv : Env := ⟨commentEngine, sampleFS, plainSender⟩

/-! ## Names inside the static root -/

/-- Whether a path element is a name: not empty, not `.`, not `..`. -/
def isName (s : List Char) : Bool :=
  s ≠ [] && s ≠ ['.'] && s ≠ ['.', '.']

/-- An element that is a name and holds no slash. -/
def goodSeg (s : List Char) : Prop := isName s = true ∧ '/' ∉ s

/-- Whether a file name, as handed to `os.Open`, lies inside the directory
`ui/static` of the working directory: it is `ui/static` followed by names
only, so no `..` leads out of it. -/
def insideStaticRoot (f : List Char) : Bool :=
  match splitSlash f with
  | a :: b :: rest => a = "ui".data && b = "static".data && rest.all isName
  | _ => false

/-- A file system that agrees with the sample one inside the static root and
holds a file `secret` next to the `ui` directory. -/
def sampleFSWithSecret : FileSystem := fun name =>
  if name = "secret".data then .file "top secret".data else sampleFS name

/-- A file system with no file at all. -/
def emptyFS : FileSystem := fun _ => .err .notExist

/-- The table of cleaned paths from the tests of Go's `path` package. -/
def cleanTable : List (String × String) :=
    [("", "."),
     ("abc", "abc"),
     ("abc/def", "abc/def"),
     ("a/b/c", "a/b/c"),
     (".", "."),
     ("..", ".."),
     ("../..", "../.."),
     ("../../abc", "../../abc"),
     ("/abc", "/abc"),
     ("/", "/"),
     ("abc/", "abc"),
     ("abc/def/", "abc/def"),
     ("a/b/c/", "a/b/c"),
     ("./", "."),
     ("../", ".."),
     ("../../", "../.."),
     ("/abc/", "/abc"),
     ("abc//def//ghi", "abc/def/ghi"),
     ("//abc", "/abc"),
     ("///abc", "/abc"),
     ("//abc//", "/abc"),
     ("abc//", "abc"),
     ("abc/./def", "abc/def"),
     ("/./abc/def", "/abc/def"),
     ("abc/.", "abc"),
     ("abc/def/ghi/../jkl", "abc/def/jkl"),
     ("abc/def/../ghi/../jkl", "abc/jkl"),
     ("abc/def/..", "abc"),
     ("abc/def/../..", "."),
     ("/abc/def/../..", "/"),
     ("abc/def/../../..", ".."),
     ("/abc/def/../../..", "/"),
     ("abc/def/../../../ghi/jkl/../../../mno", "../../mno"),
     ("abc/./../def", "def"),
     ("abc//./../def", "def"),
     ("abc/../../././../def", "../../def")]

/-! ## Invariants used in the proofs -/

/-- What parsing keeps of a flag set `f` in its result `g`: the same flags are
defined, flags set before stay set, a flag that is not set keeps its value, and
only defined flags are set. -/
def ParseInv (f g : FlagSet) : Prop :=
  g.formal.map Flag.name = f.formal.map Flag.name
  ∧ f.actual ⊆ g.actual
  ∧ (∀ name, name ∉ g.actual → g.lookup name = f.lookup name)
  ∧ (∀ n ∈ g.actual, n ∈ f.actual ∨ n ∈ f.formal.map Flag.name)

/-- Whether some argument of the command line is written as the flag `n`
(`-n`, `--n`, `-n=value` or `--n=value`). -/
def namedIn (args : List String) (n : String) : Prop :=
  ∃ s ∈ args, ∃ v, flagToken s.data = .flag n.data v

/-- The flags after the sample command line `-addr=:8080`. -/
def sampleFlags : FlagSet :=
  ⟨[⟨"addr", .str ":8080"⟩, ⟨"wait", .dur 15000000000⟩, ⟨"cert-file", .str ""⟩,
    ⟨"key-file", .str ""⟩], ["addr"], []⟩

/-- What holds of every process reached from the start, phase by phase:
`Shutdown` has not been called before the interrupt, and has been called once,
with the value of the `wait` flag, from then on. -/
def Proc.Inv (p : Proc) : Prop :=
  match p.phase with
  | .starting => p.main = [] ∧ p.flags = none
  | .usage _ => shutdownCalls p.main = []
  | .serving => (∃ f, p.flags = some f) ∧ shutdownCalls p.main = []
  | .shuttingDown => ∃ f, p.flags = some f ∧ shutdownCalls p.main = [f.durationVar "wait"]
  | .stopped c => c = 0 ∧ ∃ f, p.flags = some f ∧ shutdownCalls p.main = [f.durationVar "wait"]
  | .killed _ => (shutdownCalls p.main).length ≤ 1

/-! ## Routing lemmas -/

theorem routes_table :
    routes.routes =
      [⟨[.path "/", .methods ["GET"]], some .home⟩,
       ⟨[.pathPrefix "/static/"], some staticHandler⟩] := rfl

theorem root_not_underStatic (req : Request) (h : req.path = "/") : ¬ underStatic req := by
  unfold underStatic; rw [h]; decide

theorem Match_root_get (req : Request) (hp : req.path = "/") (hm : req.method = "GET") :
    routes.Match req ⟨none, none⟩ = (true, ⟨some .home, none⟩) := by
  simp [Router.Match, Router.matchRoutes, routes_table, Route.Match, Route.matchLoop,
    Matcher.Match, Matcher.isMethodMatcher, Route.Methods, Route.Handler, Route.Path,
    Route.PathPrefix, NewRoute, staticHandler, hp, hm]

theorem Match_root_other (req : Request) (hp : req.path = "/") (hm : req.method ≠ "GET") :
    routes.Match req ⟨none, none⟩ = (false, ⟨none, some .ErrMethodMismatch⟩) := by
  have h2 : "/static/".data.isPrefixOf "/".data = false := by decide
  simp [Router.Match, Router.matchRoutes, routes_table, Route.Match, Route.matchLoop,
    Matcher.Match, Matcher.isMethodMatcher, Route.Methods, Route.Handler, Route.Path,
    Route.PathPrefix, NewRoute, staticHandler, hp, hm, h2]

theorem Match_static (req : Request) (hs : underStatic req) :
    routes.Match req ⟨none, none⟩ = (true, ⟨some staticHandler, none⟩) := by
  have hp : req.path ≠ "/" := fun h => root_not_underStatic req h hs
  unfold underStatic at hs
  simp [Router.Match, Router.matchRoutes, routes_table, Route.Match, Route.matchLoop,
    Matcher.Match, Matcher.isMethodMatcher, Route.Methods, Route.Handler, Route.Path,
    Route.PathPrefix, NewRoute, staticHandler, hp, hs]

theorem Match_none (req : Request) (hp : req.path ≠ "/") (hs : ¬ underStatic req) :
    routes.Match req ⟨none, none⟩ = (false, ⟨none, some .ErrNotFound⟩) := by
  unfold underStatic at hs
  simp [Router.Match, Router.matchRoutes, routes_table, Route.Match, Route.matchLoop,
    Matcher.Match, Matcher.isMethodMatcher, Route.Methods, Route.Handler, Route.Path,
    Route.PathPrefix, NewRoute, staticHandler, hp, hs]

theorem ServeHTTP_not_canonical (req : Request) (hc : ¬ canonical req) :
    routes.ServeHTTP req = .movedPermanently (String.mk (cleanPath req.path.data)) := by
  unfold canonical at hc
  simp [Router.ServeHTTP, hc]

theorem ServeHTTP_canonical (req : Request) (hc : canonical req) :
    routes.ServeHTTP req =
      match routes.Match req ⟨none, none⟩ with
      | (true, m) =>
        (match m.handler with
        | some h => .serve h
        | none => if m.matchErr = some .ErrMethodMismatch then .methodNotAllowed else .notFound)
      | (false, m) =>
        if m.matchErr = some .ErrMethodMismatch then .methodNotAllowed else .notFound := by
  unfold canonical at hc
  simp [Router.ServeHTTP, hc]

theorem root_canonical (req : Request) (h : req.path = "/") : canonical req := by
  unfold canonical; rw [h]; decide

theorem TrimPrefix_lt (s : String) :
    (TrimPrefix s "/static/").data.length < s.data.length
      ↔ "/static/".data.isPrefixOf s.data = true := by
  unfold TrimPrefix
  by_cases h : "/static/".data.isPrefixOf s.data = true
  · have hle : "/static/".data.length ≤ s.data.length :=
      (List.isPrefixOf_iff_prefix.mp h).length_le
    have h8 : "/static/".data.length = 8 := rfl
    rw [if_pos h]
    refine ⟨fun _ => h, fun _ => ?_⟩
    show (s.data.drop "/static/".data.length).length < s.data.length
    rw [List.length_drop, h8]
    rw [h8] at hle
    omega
  · simp [h]

theorem static_StripPrefix (env : Env) (w : ResponseWriter) (req : Request)
    (hs : underStatic req) :
    staticHandler.ServeHTTP env w req =
      if req.rawPath = "" ∨ "/static/".data.isPrefixOf req.rawPath.data = true then
        .returned (FileServer env "./ui/static/" w
          { req with path := TrimPrefix req.path "/static/",
                     rawPath := TrimPrefix req.rawPath "/static/" })
      else .returned (NotFound w) := by
  unfold underStatic at hs
  have hp := (TrimPrefix_lt req.path).mpr hs
  have hne : ("/static/" : String) ≠ "" := by decide
  simp only [staticHandler, Handler.ServeHTTP, if_neg hne, hp, true_and, TrimPrefix_lt]

/-! ## The route table (C1, C2, C3) -/

/-- C1, as stated, fails in its second part.  `GET /static//app.css` has a path
that starts with `/static/`, and the router does not hand it to the file
server; it answers with a 301 redirect to `/static/app.css`.  And
`GET /static%2Fapp.css`, whose decoded path `/static/app.css` starts with
`/static/` and is in canonical form, is dispatched to the static route, where
`StripPrefix` answers 404 without calling the file server, because the escaped
path does not start with `/static/`. -/
theorem C1_static_not_always_served :
    (mkReq "GET" "/static//app.css").method = "GET"
    ∧ underStatic (mkReq "GET" "/static//app.css")
    ∧ routes.ServeHTTP (mkReq "GET" "/static//app.css")
        = .movedPermanently "/static/app.css"
    ∧ routes.ServeHTTP (mkReq "GET" "/static//app.css")
        ≠ .serve (.StripPrefix "/static/" (.FileServer "./ui/static/"))
    ∧ underStatic (mkRawReq "GET" "/static/app.css" "/static%2Fapp.css")
    ∧ canonical (mkRawReq "GET" "/static/app.css" "/static%2Fapp.css")
    ∧ Router.respond sampleEnv routes (mkRawReq "GET" "/static/app.css" "/static%2Fapp.css")
        = .returned (NotFound ResponseWriter.fresh)
    ∧ Router.respond sampleEnv routes (mkReq "GET" "/static/app.css")
        = .returned ⟨some 200, [], "body \x7b\x7d".data⟩ := by
  decide

/-- C1, amended: the router built by `routes` holds exactly two routes.  A GET
request whose path is exactly `/` is dispatched to the home handler.  A GET
request whose path starts with `/static/` and is in canonical form is
dispatched to the handler of the static route, `StripPrefix` around the file
server rooted at `./ui/static/`; that handler calls the file server with
`/static/` removed from the path when the escaped path of the URL, if the URL
carries one, starts with `/static/` too, and answers 404 without calling the
file server when it does not.  When the path is not in canonical form the
request is answered with a redirect to the canonical path instead.  Nothing
else is registered: whenever a handler is called, it is one of these two, for
a request of its route.  (Route matching alone, `Router.Match`, selects the two
routes whatever the form of the path.) -/
theorem C1_routes_exactly_two :
    routes.routes =
      [⟨[.path "/", .methods ["GET"]], some .home⟩,
       ⟨[.pathPrefix "/static/"],
        some (.StripPrefix "/static/" (.FileServer "./ui/static/"))⟩]
    ∧ routes.routes.length = 2
    ∧ (∀ req : Request, req.method = "GET" → req.path = "/" →
        routes.ServeHTTP req = .serve .home)
    ∧ (∀ req : Request, req.method = "GET" → underStatic req → canonical req →
        routes.ServeHTTP req = .serve (.StripPrefix "/static/" (.FileServer "./ui/static/")))
    ∧ (∀ req : Request, ¬ canonical req →
        routes.ServeHTTP req = .movedPermanently (String.mk (cleanPath req.path.data)))
    ∧ (∀ (env : Env) (w : ResponseWriter) (req : Request), underStatic req →
        (req.rawPath = "" ∨ "/static/".data.isPrefixOf req.rawPath.data = true) →
        Handler.ServeHTTP env (.StripPrefix "/static/" (.FileServer "./ui/static/")) w req
          = .returned (FileServer env "./ui/static/" w
              { req with
                path := String.mk (req.path.data.drop "/static/".data.length)
                rawPath := TrimPrefix req.rawPath "/static/" }))
    ∧ (∀ (env : Env) (w : ResponseWriter) (req : Request), underStatic req →
        ¬ (req.rawPath = "" ∨ "/static/".data.isPrefixOf req.rawPath.data = true) →
        Handler.ServeHTTP env (.StripPrefix "/static/" (.FileServer "./ui/static/")) w req
          = .returned (NotFound w))
    ∧ (∀ (req : Request) (h : Handler), routes.ServeHTTP req = .serve h →
        (h = .home ∧ req.path = "/" ∧ req.method = "GET")
        ∨ (h = .StripPrefix "/static/" (.FileServer "./ui/static/") ∧ underStatic req))
    ∧ (∀ req : Request, req.method = "GET" → req.path = "/" →
        routes.Match req ⟨none, none⟩ = (true, ⟨some .home, none⟩))
    ∧ (∀ req : Request, req.method = "GET" → underStatic req →
        routes.Match req ⟨none, none⟩
          = (true, ⟨some (.StripPrefix "/static/" (.FileServer "./ui/static/")), none⟩)) := by
  refine ⟨rfl, rfl, ?_, ?_, ?_, ?_, ?_, ?_, ?_, ?_⟩
  · intro req hm hp
    rw [ServeHTTP_canonical req (root_canonical req hp), Match_root_get req hp hm]
  · intro req _ hs hc
    rw [ServeHTTP_canonical req hc, Match_static req hs]
    rfl
  · intro req hc
    exact ServeHTTP_not_canonical req hc
  · intro env w req hs hraw
    have h := static_StripPrefix env w req hs
    rw [if_pos hraw] at h
    have hp : TrimPrefix req.path "/static/"
        = String.mk (req.path.data.drop "/static/".data.length) := by
      unfold underStatic at hs
      simp [TrimPrefix, hs]
    rw [hp] at h
    exact h
  · intro env w req hs hraw
    have h := static_StripPrefix env w req hs
    rw [if_neg hraw] at h
    exact h
  · intro req h hserve
    by_cases hc : canonical req
    · rw [ServeHTTP_canonical req hc] at hserve
      by_cases hp : req.path = "/"
      · by_cases hm : req.method = "GET"
        · rw [Match_root_get req hp hm] at hserve
          left
          refine ⟨?_, hp, hm⟩
          simp only [Dispatch.serve.injEq] at hserve
          exact hserve.symm
        · rw [Match_root_other req hp hm] at hserve
          simp at hserve
      · by_cases hs : underStatic req
        · rw [Match_static req hs] at hserve
          right
          refine ⟨?_, hs⟩
          simp only [Dispatch.serve.injEq] at hserve
          exact hserve.symm
        · rw [Match_none req hp hs] at hserve
          simp at hserve
    · rw [ServeHTTP_not_canonical req hc] at hserve
      cases hserve
  · intro req hm hp
    exact Match_root_get req hp hm
  · intro req _ hs
    exact Match_static req hs

/-- Witness of C1 (amended): `GET /static/app.css` is dispatched to the file
server behind `StripPrefix`. -/
theorem C1_routes_exactly_two_witness :
    routes.ServeHTTP (mkReq "GET" "/static/app.css")
      = .serve (.StripPrefix "/static/" (.FileServer "./ui/static/")) :=
  C1_routes_exactly_two.2.2.2.1 (mkReq "GET" "/static/app.css") rfl (by decide) (by decide)

/-- C2, as stated, fails: `GET /a//b` has a path that is neither `/` nor under
`/static/`, and the router answers it with a 301 redirect to `/a/b`, not with
404. -/
theorem C2_redirect_not_404 :
    (mkReq "GET" "/a//b").path ≠ "/"
    ∧ ¬ underStatic (mkReq "GET" "/a//b")
    ∧ routes.ServeHTTP (mkReq "GET" "/a//b") = .movedPermanently "/a/b"
    ∧ routes.ServeHTTP (mkReq "GET" "/a//b") ≠ .notFound := by
  decide

/-- C2, amended: for every request whose path is neither `/` nor under
`/static/`, no handler is called; the answer is the standard 404 when the path
is in canonical form, and a 301 redirect to the canonical path when it is
not. -/
theorem C2_unmatched_paths (env : Env) (req : Request)
    (hp : req.path ≠ "/") (hs : ¬ underStatic req) :
    (∀ h, routes.ServeHTTP req ≠ .serve h)
    ∧ (canonical req →
        routes.ServeHTTP req = .notFound
        ∧ Router.respond env routes req = .returned (NotFound ResponseWriter.fresh)
        ∧ (NotFound ResponseWriter.fresh).finish.status = 404)
    ∧ (¬ canonical req →
        routes.ServeHTTP req = .movedPermanently (String.mk (cleanPath req.path.data))) := by
  have hcan : canonical req → routes.ServeHTTP req = .notFound := by
    intro hc
    rw [ServeHTTP_canonical req hc, Match_none req hp hs]
    simp
  refine ⟨?_, ?_, ?_⟩
  · intro h
    by_cases hc : canonical req
    · rw [hcan hc]; simp
    · rw [ServeHTTP_not_canonical req hc]; simp
  · intro hc
    refine ⟨hcan hc, ?_, by decide⟩
    simp [Router.respond, hcan hc]
  · intro hc
    exact ServeHTTP_not_canonical req hc

/-- Witness of C2 (amended): `GET /unknown` in the sample surroundings. -/
theorem C2_unmatched_paths_witness :
    routes.ServeHTTP (mkReq "GET" "/unknown") = .notFound
    ∧ (NotFound ResponseWriter.fresh).finish.status = 404 :=
  ⟨((C2_unmatched_paths sampleEnv (mkReq "GET" "/unknown") (by decide) (by decide)).2.1
      (by decide)).1,
   ((C2_unmatched_paths sampleEnv (mkReq "GET" "/unknown") (by decide) (by decide)).2.1
      (by decide)).2.2⟩


theorem splitSlash_ne_nil (p : List Char) : splitSlash p ≠ [] := by
  cases p with
  | nil => simp [splitSlash]
  | cons c cs =>
    unfold splitSlash
    split
    · simp
    · split <;> simp

theorem splitSlash_noSlash (p : List Char) : ∀ s ∈ splitSlash p, '/' ∉ s := by
  induction p with
  | nil => simp [splitSlash]
  | cons c cs ih =>
    unfold splitSlash
    split
    · intro s hs
      simp only [List.mem_cons] at hs
      rcases hs with rfl | hs
      · simp
      · exact ih s hs
    · rename_i hc
      split
      · rename_i h; exact absurd h (splitSlash_ne_nil cs)
      · rename_i s0 ss h
        rw [h] at ih
        intro s hs
        simp only [List.mem_cons] at hs
        rcases hs with rfl | hs
        · have := ih s0 (by simp)
          simp only [List.mem_cons, not_or]
          exact ⟨fun e => hc e.symm, this⟩
        · exact ih s (by simp [hs])

theorem splitSlash_append (a b : List Char) :
    splitSlash (a ++ '/' :: b) = splitSlash a ++ splitSlash b := by
  induction a with
  | nil => simp [splitSlash]
  | cons c cs ih =>
    simp only [List.cons_append]
    by_cases hc : c = '/'
    · simp [splitSlash, hc, ih]
    · rw [splitSlash, if_neg hc, ih]
      conv_rhs => rw [splitSlash, if_neg hc]
      cases h : splitSlash cs with
      | nil => exact absurd h (splitSlash_ne_nil cs)
      | cons s ss => simp

theorem splitSlash_of_noSlash (s : List Char) (h : '/' ∉ s) : splitSlash s = [s] := by
  induction s with
  | nil => rfl
  | cons c cs ih =>
    simp only [List.mem_cons, not_or] at h
    have hc : c ≠ '/' := fun e => h.1 e.symm
    rw [splitSlash, if_neg hc, ih h.2]

theorem splitSlash_joinSlash (segs : List (List Char)) (hne : segs ≠ [])
    (h : ∀ s ∈ segs, '/' ∉ s) : splitSlash (joinSlash segs) = segs := by
  induction segs with
  | nil => exact absurd rfl hne
  | cons s rest ih =>
    cases rest with
    | nil => simpa [joinSlash] using splitSlash_of_noSlash s (h s (by simp))
    | cons t ss =>
      rw [joinSlash, splitSlash_append, splitSlash_of_noSlash s (h s (by simp)),
        ih (by simp) (fun x hx => h x (by simp [hx]))]
      rfl



theorem mem_dropLast_of {α : Type} (l : List α) (x : α) (h : x ∈ l.dropLast) : x ∈ l :=
  List.dropLast_subset l h

theorem cleanStep_rooted_good (out : List (List Char)) (seg : List Char)
    (hout : ∀ s ∈ out, goodSeg s) (hseg : '/' ∉ seg) :
    ∀ s ∈ cleanStep true out seg, goodSeg s := by
  unfold cleanStep
  by_cases h1 : seg = []
  · simpa [h1] using hout
  by_cases h2 : seg = ['.']
  · simpa [h1, h2] using hout
  by_cases h3 : seg = ['.', '.']
  · rw [if_neg h1, if_neg h2, if_pos h3]
    cases out.getLast? with
    | none => simpa using hout
    | some l =>
      intro s hs
      simp only [if_true, ite_self] at hs
      exact hout s (mem_dropLast_of out s hs)
  · rw [if_neg h1, if_neg h2, if_neg h3]
    intro s hs
    simp only [List.mem_append, List.mem_singleton] at hs
    rcases hs with hs | rfl
    · exact hout s hs
    · exact ⟨by simp [isName, h1, h2, h3], hseg⟩

theorem foldl_rooted_good (segs out : List (List Char))
    (hout : ∀ s ∈ out, goodSeg s) (hsegs : ∀ s ∈ segs, '/' ∉ s) :
    ∀ s ∈ segs.foldl (cleanStep true) out, goodSeg s := by
  induction segs generalizing out with
  | nil => simpa using hout
  | cons seg rest ih =>
    simp only [List.foldl_cons]
    exact ih _ (cleanStep_rooted_good out seg hout (hsegs seg (by simp)))
      (fun s hs => hsegs s (by simp [hs]))

theorem cleanStep_name (rooted : Bool) (out : List (List Char)) (seg : List Char)
    (h : isName seg = true) : cleanStep rooted out seg = out ++ [seg] := by
  simp only [isName, Bool.and_eq_true, decide_eq_true_eq] at h
  obtain ⟨⟨h1, h2⟩, h3⟩ := h
  simp [cleanStep, h1, h2, h3]

theorem foldl_names (rooted : Bool) (segs out : List (List Char))
    (h : ∀ s ∈ segs, isName s = true) :
    segs.foldl (cleanStep rooted) out = out ++ segs := by
  induction segs generalizing out with
  | nil => simp
  | cons seg rest ih =>
    simp only [List.foldl_cons]
    rw [cleanStep_name rooted out seg (h seg (by simp)),
      ih _ (fun s hs => h s (by simp [hs]))]
    simp

/-- A rooted path cleans to a slash followed by names. -/
theorem Clean_rooted (name : List Char) :
    ∃ R : List (List Char), (∀ s ∈ R, goodSeg s) ∧ Clean ('/' :: name) = '/' :: joinSlash R := by
  refine ⟨(splitSlash ('/' :: name)).foldl (cleanStep true) [], ?_, ?_⟩
  · exact foldl_rooted_good _ [] (by simp) (splitSlash_noSlash _)
  · simp [Clean]

theorem splitSlash_joinSlash_fold (rooted : Bool) (R out : List (List Char))
    (hR : ∀ s ∈ R, goodSeg s) :
    (splitSlash (joinSlash R)).foldl (cleanStep rooted) out = out ++ R := by
  cases R with
  | nil => simp [joinSlash, splitSlash, cleanStep]
  | cons r rs =>
    rw [splitSlash_joinSlash (r :: rs) (by simp) (fun s hs => (hR s hs).2)]
    exact foldl_names rooted (r :: rs) out (fun s hs => (hR s hs).1)

/-- The name opened by `http.Dir("./ui/static/")` is the root followed by names. -/
theorem fullName_static (name : List Char) :
    ∃ R : List (List Char), (∀ s ∈ R, goodSeg s) ∧
      Dir.fullName "./ui/static/".data name = joinSlash ("ui".data :: "static".data :: R) := by
  obtain ⟨R, hR, hc⟩ := Clean_rooted name
  refine ⟨R, hR, ?_⟩
  have hD : "./ui/static/".data = '.' :: "/ui/static/".data := rfl
  have hne : "./ui/static/".data ≠ [] := by decide
  have hsplit : splitSlash ("./ui/static/".data ++ '/' :: ('/' :: joinSlash R))
      = [".".data, "ui".data, "static".data, [], []] ++ splitSlash (joinSlash R) := by
    rw [splitSlash_append]
    have h1 : splitSlash "./ui/static/".data = [".".data, "ui".data, "static".data, []] := by
      decide
    rw [h1]
    simp [splitSlash]
  have hfold : (splitSlash ("./ui/static/".data ++ '/' :: ('/' :: joinSlash R))).foldl
      (cleanStep false) [] = "ui".data :: "static".data :: R := by
    rw [hsplit, List.foldl_append]
    have h2 : [".".data, "ui".data, "static".data, [], []].foldl (cleanStep false) []
        = ["ui".data, "static".data] := by decide
    rw [h2, splitSlash_joinSlash_fold false R _ hR]
    rfl
  unfold Dir.fullName filepathJoin
  rw [if_neg hne, hc]
  have hcl : ∀ q : List Char, Clean ("./ui/static/".data ++ q)
      = (let out := (splitSlash ("./ui/static/".data ++ q)).foldl (cleanStep false) []
         if out = [] then ['.'] else joinSlash out) := by
    intro q
    rw [hD]
    simp [Clean]
  rw [hcl, hfold]
  simp

theorem insideStaticRoot_fullName (name : List Char) :
    insideStaticRoot (Dir.fullName "./ui/static/".data name) = true := by
  obtain ⟨R, hR, h⟩ := fullName_static name
  rw [h]
  unfold insideStaticRoot
  rw [splitSlash_joinSlash _ (by simp)]
  · simp only [Bool.and_eq_true, decide_eq_true_eq, List.all_eq_true, true_and]
    exact fun s hs => (hR s hs).1
  · intro s hs
    simp only [List.mem_cons] at hs
    rcases hs with rfl | rfl | hs
    · decide
    · decide
    · exact (hR s hs).2

theorem splitSlash_rooted_join (R : List (List Char)) (hR : ∀ s ∈ R, goodSeg s) :
    ∀ s ∈ splitSlash ('/' :: joinSlash R), s = [] ∨ isName s = true := by
  intro s hs
  simp only [splitSlash, if_true, List.mem_cons] at hs
  rcases hs with rfl | hs
  · exact Or.inl rfl
  · cases R with
    | nil =>
      simp only [joinSlash, splitSlash, List.mem_singleton] at hs
      exact Or.inl hs
    | cons r rs =>
      rw [splitSlash_joinSlash (r :: rs) (by simp) (fun x hx => (hR x hx).2)] at hs
      exact Or.inr (hR s hs).1

/-- The canonical form of a request path holds no `.` and no `..` element. -/
theorem cleanPath_segs (p : List Char) :
    ∀ s ∈ splitSlash (cleanPath p), s = [] ∨ isName s = true := by
  have key : ∀ q : List Char, ∀ s ∈ splitSlash
      (if ('/' :: q).getLast? = some '/' ∧ Clean ('/' :: q) ≠ ['/']
        then Clean ('/' :: q) ++ ['/'] else Clean ('/' :: q)), s = [] ∨ isName s = true := by
    intro q
    obtain ⟨R, hR, hc⟩ := Clean_rooted q
    rw [hc]
    split
    · intro s hs
      rw [splitSlash_append] at hs
      simp only [List.mem_append] at hs
      rcases hs with hs | hs
      · exact splitSlash_rooted_join R hR s hs
      · simp only [splitSlash, List.mem_singleton] at hs
        exact Or.inl hs
    · exact splitSlash_rooted_join R hR
  cases p with
  | nil => decide
  | cons c cs =>
    by_cases hc : c = '/'
    · subst hc
      simpa [cleanPath] using key cs
    · simpa [cleanPath, hc] using key (c :: cs)

/-- A request path with a `..` element is not in canonical form. -/
theorem dotdot_not_canonical (req : Request)
    (h : ['.', '.'] ∈ splitSlash req.path.data) : ¬ canonical req := by
  intro hc
  unfold canonical at hc
  rw [← hc] at h
  rcases cleanPath_segs _ _ h with h1 | h1
  · exact absurd h1 (by decide)
  · exact absurd h1 (by decide)

/-! ## The static route (C5) -/

theorem Dir_Open_static (fs1 fs2 : FileSystem)
    (h : ∀ f, insideStaticRoot f = true → fs1 f = fs2 f) (name : List Char) :
    Dir.Open fs1 "./ui/static/".data name = Dir.Open fs2 "./ui/static/".data name :=
  h _ (insideStaticRoot_fullName name)

theorem serveFile_static (eng : TemplateEngine) (send : FileSender) (fs1 fs2 : FileSystem)
    (h : ∀ f, insideStaticRoot f = true → fs1 f = fs2 f)
    (w : ResponseWriter) (r : Request) (name : List Char) :
    serveFile ⟨eng, fs1, send⟩ "./ui/static/".data w r name
      = serveFile ⟨eng, fs2, send⟩ "./ui/static/".data w r name := by
  unfold serveFile
  simp only [Dir_Open_static fs1 fs2 h]

theorem staticHandler_confined (eng : TemplateEngine) (send : FileSender)
    (fs1 fs2 : FileSystem) (h : ∀ f, insideStaticRoot f = true → fs1 f = fs2 f)
    (w : ResponseWriter) (r : Request) :
    staticHandler.ServeHTTP ⟨eng, fs1, send⟩ w r = staticHandler.ServeHTTP ⟨eng, fs2, send⟩ w r := by
  have hfs : ∀ (w : ResponseWriter) (r : Request),
      FileServer ⟨eng, fs1, send⟩ "./ui/static/" w r
        = FileServer ⟨eng, fs2, send⟩ "./ui/static/" w r := by
    intro w r
    unfold FileServer
    exact serveFile_static eng send fs1 fs2 h _ _ _
  simp only [staticHandler, Handler.ServeHTTP, hfs]

theorem sampleFS_agree :
    ∀ f, insideStaticRoot f = true → sampleFS f = sampleFSWithSecret f := by
  intro f hf
  unfold sampleFSWithSecret
  by_cases hsec : f = "secret".data
  · subst hsec
    exact absurd hf (by decide)
  · rw [if_neg hsec]

/-- C5, as stated, fails in its last part: `GET /static/../secret` is not
answered with a not-found, forbidden or bad-request error; the router answers
it with a 301 redirect to `/secret` before any route is tried. -/
theorem C5_traversal_redirected :
    underStatic (mkReq "GET" "/static/../secret")
    ∧ routes.ServeHTTP (mkReq "GET" "/static/../secret") = .movedPermanently "/secret"
    ∧ Router.respond sampleEnv routes (mkReq "GET" "/static/../secret")
        = .returned ⟨some 301, [("Location", "/secret")], []⟩ := by
  decide

/-- C5, amended: the static route never returns anything from outside the
directory `ui/static`.  Every name the file server opens lies inside that
directory; hence two file systems that agree inside it give the same answer to
every request under `/static/`, and the same result of the static handler on
every request it could be handed.  A request whose path holds a `..` element
reaches no handler: it is answered with a 301 redirect to the cleaned path. -/
theorem C5_static_confined (eng : TemplateEngine) (send : FileSender)
    (fs1 fs2 : FileSystem) (h : ∀ f, insideStaticRoot f = true → fs1 f = fs2 f)
    (req : Request) (hs : underStatic req) :
    Router.respond ⟨eng, fs1, send⟩ routes req = Router.respond ⟨eng, fs2, send⟩ routes req
    ∧ (∀ (w : ResponseWriter) (r : Request),
        Handler.ServeHTTP ⟨eng, fs1, send⟩
            (.StripPrefix "/static/" (.FileServer "./ui/static/")) w r
          = Handler.ServeHTTP ⟨eng, fs2, send⟩
            (.StripPrefix "/static/" (.FileServer "./ui/static/")) w r)
    ∧ (∀ name, insideStaticRoot (Dir.fullName "./ui/static/".data name) = true)
    ∧ (['.', '.'] ∈ splitSlash req.path.data →
        Router.respond ⟨eng, fs1, send⟩ routes req
          = .returned (redirectTo send ResponseWriter.fresh req
              (String.mk (cleanPath req.path.data)))
        ∧ (redirectTo send ResponseWriter.fresh req
              (String.mk (cleanPath req.path.data))).finish.status = 301
        ∧ (redirectTo send ResponseWriter.fresh req
              (String.mk (cleanPath req.path.data))).finish.body = []) := by
  refine ⟨?_, ?_, insideStaticRoot_fullName, ?_⟩
  · by_cases hc : canonical req
    · have hd : routes.ServeHTTP req = .serve staticHandler := by
        rw [ServeHTTP_canonical req hc, Match_static req hs]
      simp only [Router.respond, hd]
      exact staticHandler_confined eng send fs1 fs2 h _ _
    · simp only [Router.respond, ServeHTTP_not_canonical req hc]
  · intro w r
    exact staticHandler_confined eng send fs1 fs2 h w r
  · intro hdd
    refine ⟨?_, rfl, rfl⟩
    simp only [Router.respond, ServeHTTP_not_canonical req (dotdot_not_canonical req hdd)]

/-- Witness of C5 (amended): the sample file system with and without a file
`secret` outside the static root, asked for `/static/../secret`. -/
theorem C5_static_confined_witness :
    underStatic (mkReq "GET" "/static/../secret")
    ∧ sampleFS "secret".data ≠ sampleFSWithSecret "secret".data
    ∧ Router.respond ⟨commentEngine, sampleFS, plainSender⟩ routes
          (mkReq "GET" "/static/../secret")
        = Router.respond ⟨commentEngine, sampleFSWithSecret, plainSender⟩ routes
          (mkReq "GET" "/static/../secret") :=
  ⟨by decide, by decide,
    (C5_static_confined commentEngine plainSender sampleFS sampleFSWithSecret
      sampleFS_agree (mkReq "GET" "/static/../secret") (by decide)).1⟩

/-! ## Flag and lifecycle lemmas -/

theorem ParseInv_args (f : FlagSet) (a : List String) : ParseInv f { f with args := a } :=
  ⟨rfl, fun _ h => h, fun _ _ => rfl, fun _ h => Or.inl h⟩

theorem assign_names (f : FlagSet) (n : String) (v : FlagValue) :
    (f.assign n v).formal.map Flag.name = f.formal.map Flag.name := by
  simp only [FlagSet.assign, List.map_map]
  apply List.map_congr_left
  intro fl _
  simp only [Function.comp]
  split <;> rfl

theorem lookup_assign_ne (f : FlagSet) (n name : String) (v : FlagValue) (h : name ≠ n) :
    (f.assign n v).lookup name = f.lookup name := by
  simp only [FlagSet.lookup, FlagSet.assign]
  induction f.formal with
  | nil => rfl
  | cons fl rest ih =>
    simp only [List.map_cons, List.find?_cons]
    by_cases hm : fl.name = name
    · have hn : ¬ fl.name = n := fun e => h (hm.symm.trans e)
      rw [if_neg hn]
      simp [hm]
    · have hg : (if fl.name = n then ({ fl with value := v } : Flag) else fl).name
          = fl.name := by
        split <;> rfl
      rw [hg]
      simp only [hm, decide_False]
      exact ih

theorem mem_actual_assign (f : FlagSet) (n : String) (v : FlagValue) :
    n ∈ (f.assign n v).actual := by
  simp only [FlagSet.assign]
  split
  · assumption
  · simp

theorem actual_subset_assign (f : FlagSet) (n : String) (v : FlagValue) :
    f.actual ⊆ (f.assign n v).actual := by
  intro x hx
  simp only [FlagSet.assign]
  split
  · exact hx
  · simp [hx]

theorem actual_assign_mem (f : FlagSet) (n : String) (v : FlagValue) (x : String)
    (hx : x ∈ (f.assign n v).actual) : x ∈ f.actual ∨ x = n := by
  simp only [FlagSet.assign] at hx
  split at hx
  · exact Or.inl hx
  · simpa using hx

theorem lookup_name_mem (f : FlagSet) (n : String) (fl : Flag) (h : f.lookup n = some fl) :
    n ∈ f.formal.map Flag.name := by
  unfold FlagSet.lookup at h
  have h1 := List.find?_some h
  have h2 := List.mem_of_find?_eq_some h
  simp only [decide_eq_true_eq] at h1
  exact List.mem_map.mpr ⟨fl, h2, h1⟩

theorem ParseInv_assign (f g : FlagSet) (n : String) (fl : Flag) (v : FlagValue)
    (hl : f.lookup n = some fl) (h : ParseInv (f.assign n v) g) : ParseInv f g := by
  obtain ⟨h1, h2, h3, h4⟩ := h
  refine ⟨h1.trans (assign_names f n v), fun x hx => h2 (actual_subset_assign f n v hx), ?_, ?_⟩
  · intro name hname
    have hne : name ≠ n := fun e => hname (e ▸ h2 (mem_actual_assign f n v))
    rw [h3 name hname, lookup_assign_ne f n name v hne]
  · intro x hx
    rcases h4 x hx with hx | hx
    · rcases actual_assign_mem f n v x hx with hx | rfl
      · exact Or.inl hx
      · exact Or.inr (lookup_name_mem f x fl hl)
    · right; rw [← assign_names f n v]; exact hx

theorem parseLoop_inv (pd : String → Option Int) :
    ∀ (n : Nat) (args : List String) (f g : FlagSet), args.length ≤ n →
      FlagSet.parseLoop pd f args = .ok g → ParseInv f g := by
  intro n
  induction n using Nat.strong_induction_on with
  | _ n ih =>
    intro args f g hlen h
    cases args with
    | nil =>
      simp only [FlagSet.parseLoop, Except.ok.injEq] at h
      subst h
      exact ParseInv_args f []
    | cons s rest =>
      have hlt : rest.length < n := by simp at hlen; omega
      unfold FlagSet.parseLoop at h
      split at h
      · simp only [Except.ok.injEq] at h; subst h; exact ParseInv_args f _
      · simp only [Except.ok.injEq] at h; subst h; exact ParseInv_args f _
      · cases h
      · rename_i nm v _
        simp only at h
        split at h
        · split at h <;> cases h
        · rename_i fl hl
          split at h
          · split at h
            · cases h
            · exact ParseInv_assign f g _ fl _ hl (ih rest.length hlt rest _ g le_rfl h)
          · split at h
            · cases h
            · split at h
              · cases h
              · rename_i value rest1 _ fv _
                have hlt1 : rest1.length < n := by simp at hlt; omega
                exact ParseInv_assign f g _ fl _ hl (ih rest1.length hlt1 rest1 _ g le_rfl h)



theorem Parse_inv (pd : String → Option Int) (f g : FlagSet) (args : List String)
    (h : f.Parse pd args = .ok g) : ParseInv f g :=
  parseLoop_inv pd args.length args f g le_rfl h

theorem parseLoop_named (pd : String → Option Int) :
    ∀ (n : Nat) (args : List String) (f g : FlagSet), args.length ≤ n →
      FlagSet.parseLoop pd f args = .ok g →
      ∀ x ∈ g.actual, x ∈ f.actual ∨ namedIn args x := by
  intro n
  induction n using Nat.strong_induction_on with
  | _ n ih =>
    intro args f g hlen h
    cases args with
    | nil =>
      simp only [FlagSet.parseLoop, Except.ok.injEq] at h
      subst h
      exact fun x hx => Or.inl hx
    | cons s rest =>
      have hlt : rest.length < n := by simp at hlen; omega
      unfold FlagSet.parseLoop at h
      split at h
      · simp only [Except.ok.injEq] at h; subst h; exact fun x hx => Or.inl hx
      · simp only [Except.ok.injEq] at h; subst h; exact fun x hx => Or.inl hx
      · cases h
      · rename_i nm v htok
        simp only at h
        have hstep : ∀ (fv : FlagValue) (tail : List String), (∀ t ∈ tail, t ∈ s :: rest) →
            (∀ x ∈ g.actual, x ∈ (f.assign (String.mk nm) fv).actual ∨ namedIn tail x) →
            ∀ x ∈ g.actual, x ∈ f.actual ∨ namedIn (s :: rest) x := by
          intro fv tail hsub hrec x hx
          rcases hrec x hx with h1 | ⟨t, ht, w, hw⟩
          · rcases actual_assign_mem f _ fv x h1 with h2 | rfl
            · exact Or.inl h2
            · exact Or.inr ⟨s, by simp, v, htok⟩
          · exact Or.inr ⟨t, hsub t ht, w, hw⟩
        split at h
        · split at h <;> cases h
        · rename_i fl hl
          split at h
          · split at h
            · cases h
            · rename_i fv _
              exact hstep fv rest (fun t ht => by simp [ht])
                (ih rest.length hlt rest _ g le_rfl h)
          · split at h
            · cases h
            · split at h
              · cases h
              · rename_i value rest1 _ fv _
                have hlt1 : rest1.length < n := by simp at hlt; omega
                exact hstep fv rest1 (fun t ht => by simp [ht])
                  (ih rest1.length hlt1 rest1 _ g le_rfl h)

theorem Parse_named (pd : String → Option Int) (args : List String) (g : FlagSet)
    (h : CommandLine.Parse pd args = .ok g) (x : String) (hx : ¬ namedIn args x) :
    x ∉ g.actual := by
  intro hmem
  rcases parseLoop_named pd args.length args CommandLine g le_rfl h x hmem with h1 | h1
  · exact absurd h1 (by simp [CommandLine, flagString, flagDuration, FlagSet.empty])
  · exact hx h1

theorem shutdownCalls_append (a b : List Effect) :
    shutdownCalls (a ++ b) = shutdownCalls a ++ shutdownCalls b := by
  induction a with
  | nil => rfl
  | cons e rest ih => cases e <;> simp [shutdownCalls, ih]

theorem step_Inv (pd : String → Option Int) (p : Proc) (e : Event) (h : p.Inv) :
    (step pd p e).Inv := by
  obtain ⟨ph, fl, sv, mn, bg⟩ := p
  cases ph with
  | starting =>
    obtain ⟨h1, h2⟩ := h
    simp only at h1 h2
    subst h1 h2
    cases e with
    | exec args =>
      simp only [step, Proc.start]
      cases CommandLine.Parse pd args with
      | error err => simp [Proc.Inv, shutdownCalls]
      | ok f => simp [Proc.Inv, shutdownCalls]
    | signal s => simp [step, Proc.Inv, shutdownCalls]
    | listenReturned err => simp [step, Proc.Inv]
    | shutdownReturned r => simp [step, Proc.Inv]
  | usage c => cases e <;> simpa [step] using h
  | serving =>
    obtain ⟨⟨f, hf⟩, h2⟩ := h
    simp only at hf h2
    subst hf
    cases e with
    | exec args => simpa [step, Proc.Inv] using h2
    | signal s =>
      cases s <;>
        simp [step, Proc.Inv, Proc.interrupt, shutdownCalls_append, shutdownCalls, h2]
    | listenReturned err => simpa [step, Proc.Inv, Proc.listenFailed] using h2
    | shutdownReturned r => simpa [step, Proc.Inv] using h2
  | shuttingDown =>
    obtain ⟨f, hf, h2⟩ := h
    simp only at hf h2
    subst hf
    cases e with
    | exec args => simpa [step, Proc.Inv] using h2
    | signal s =>
      cases s <;> simp [step, Proc.Inv, h2]
    | listenReturned err => simpa [step, Proc.Inv, Proc.listenFailed] using h2
    | shutdownReturned r =>
      simp [step, Proc.Inv, Proc.afterShutdown, shutdownCalls_append, shutdownCalls, h2]
  | stopped c => cases e <;> simpa [step] using h
  | killed s => cases e <;> simpa [step] using h

theorem run_Inv (pd : String → Option Int) (es : List Event) (p : Proc) (h : p.Inv) :
    (run pd p es).Inv := by
  induction es generalizing p with
  | nil => exact h
  | cons e rest ih => exact ih _ (step_Inv pd p e h)

theorem init_Inv : Proc.init.Inv := ⟨rfl, rfl⟩

theorem main_Inv (pd : String → Option Int) (es : List Event) : (main pd es).Inv :=
  run_Inv pd es Proc.init init_Inv

theorem step_mainView_listen (pd : String → Option Int) (p : Proc) (err : String) :
    (step pd p (.listenReturned err)).mainView = p.mainView := by
  obtain ⟨ph, fl, sv, mn, bg⟩ := p
  cases ph <;> rfl

theorem step_mainView_congr (pd : String → Option Int) (p q : Proc) (e : Event)
    (h : p.mainView = q.mainView) : (step pd p e).mainView = (step pd q e).mainView := by
  obtain ⟨ph, fl, sv, mn, bg⟩ := p
  obtain ⟨ph2, fl2, sv2, mn2, bg2⟩ := q
  simp only [Proc.mainView, Prod.mk.injEq] at h
  obtain ⟨rfl, rfl, rfl, rfl⟩ := h
  cases ph with
  | starting =>
    cases e with
    | exec args =>
      simp only [step, Proc.start]
      cases CommandLine.Parse pd args <;> rfl
    | _ => rfl
  | serving =>
    cases e with
    | signal s => cases s <;> cases fl <;> rfl
    | _ => rfl
  | shuttingDown =>
    cases e with
    | signal s => cases s <;> rfl
    | _ => rfl
  | _ => cases e <;> rfl

theorem run_mainView_filter (pd : String → Option Int) (es : List Event) (p q : Proc)
    (h : p.mainView = q.mainView) :
    (run pd p es).mainView
      = (run pd q (es.filter (fun e => !e.isListenReturned))).mainView := by
  induction es generalizing p q with
  | nil => exact h
  | cons e rest ih =>
    cases e with
    | listenReturned err =>
      simp only [run, List.foldl_cons, Event.isListenReturned, Bool.not_true,
        Bool.false_eq_true, not_false_eq_true, List.filter_cons_of_neg]
      exact ih _ _ ((step_mainView_listen pd p err).trans h)
    | exec args =>
      simp only [run, List.foldl_cons, Event.isListenReturned, Bool.not_false,
        List.filter_cons_of_pos]
      exact ih _ _ (step_mainView_congr pd p q _ h)
    | signal s =>
      simp only [run, List.foldl_cons, Event.isListenReturned, Bool.not_false,
        List.filter_cons_of_pos]
      exact ih _ _ (step_mainView_congr pd p q _ h)
    | shutdownReturned r =>
      simp only [run, List.foldl_cons, Event.isListenReturned, Bool.not_false,
        List.filter_cons_of_pos]
      exact ih _ _ (step_mainView_congr pd p q _ h)



theorem step_flags (pd : String → Option Int) (p : Proc) (e : Event)
    (h : p.phase ≠ .starting) :
    (step pd p e).flags = p.flags ∧ (step pd p e).phase ≠ .starting := by
  obtain ⟨ph, fl, sv, mn, bg⟩ := p
  cases ph with
  | starting => exact absurd rfl h
  | serving =>
    cases e with
    | signal s => cases s <;> cases fl <;> simp [step, Proc.interrupt]
    | _ => simp [step, Proc.listenFailed]
  | shuttingDown =>
    cases e with
    | signal s => cases s <;> simp [step]
    | _ => simp [step, Proc.listenFailed, Proc.afterShutdown]
  | _ => cases e <;> simp [step]

theorem run_flags (pd : String → Option Int) (es : List Event) (p : Proc)
    (h : p.phase ≠ .starting) : (run pd p es).flags = p.flags := by
  induction es generalizing p with
  | nil => rfl
  | cons e rest ih =>
    have hs := step_flags pd p e h
    show (run pd (step pd p e) rest).flags = p.flags
    rw [ih _ hs.2, hs.1]

theorem main_exec_flags (pd : String → Option Int) (args : List String) (f : FlagSet)
    (es : List Event) (h : CommandLine.Parse pd args = .ok f) :
    (main pd (.exec args :: es)).flags = some f := by
  have hstart : step pd Proc.init (.exec args)
      = { phase := .serving, flags := some f, srv := some (mkServer f),
          main := [.Notify .SIGINT],
          background :=
            [.infoLog ("Test Deploy v1.0.0 listening on " ++ f.stringVar "addr"),
             .ListenAndServeTLS (mkServer f).Addr (f.stringVar "cert-file")
               (f.stringVar "key-file")] } := by
    simp [step, Proc.start, h, Proc.init]
  show (run pd (step pd Proc.init (.exec args)) es).flags = some f
  rw [run_flags pd es _ (by rw [hstart]; simp), hstart]

theorem Parse_wait (pd : String → Option Int) (v : String) (d : Int) (h : pd v = some d) :
    ∃ f, CommandLine.Parse pd ["-wait", v] = .ok f ∧ f.durationVar "wait" = d := by
  refine ⟨{ (CommandLine.assign "wait" (.dur d)) with args := [] }, ?_, rfl⟩
  have htok : flagToken "-wait".data = .flag "wait".data none := by decide
  have hl : CommandLine.lookup "wait" = some ⟨"wait", .dur (Second * 15)⟩ := by decide
  simp [FlagSet.Parse, FlagSet.parseLoop, htok, hl, FlagValue.Set, h]

theorem Parse_wait_eq (pd : String → Option Int) (v : String) (d : Int) (h : pd v = some d) :
    ∃ f, CommandLine.Parse pd ["-wait=" ++ v] = .ok f ∧ f.durationVar "wait" = d := by
  refine ⟨{ (CommandLine.assign "wait" (.dur d)) with args := [] }, ?_, rfl⟩
  have hd : ("-wait=" ++ v).data = '-' :: 'w' :: 'a' :: 'i' :: 't' :: '=' :: v.data := by
    rw [String.data_append]; rfl
  have htok : flagToken ("-wait=" ++ v).data = .flag "wait".data (some v.data) := by
    rw [hd]
    simp [flagToken, cutAtEquals, List.span, List.span.loop]
  have hl : CommandLine.lookup "wait" = some ⟨"wait", .dur (Second * 15)⟩ := by decide
  have hv : String.mk v.data = v := rfl
  simp [FlagSet.Parse, FlagSet.parseLoop, htok, hl, FlagValue.Set, h, hv]

/-! ## The command line and the start/stop sequence (C6, C7, C8, C9) -/

theorem Parse_sample :
    CommandLine.Parse secondsOnly ["-addr=:8080"] = .ok sampleFlags := by decide

/-- C6: the command line defines exactly the four flags `addr`, `wait`,
`cert-file` and `key-file`, with the defaults `:4000`, 15 seconds, the empty
string and the empty string.  For every command line that parses: no other
flag is defined or set, a flag that no argument names is not set, a flag that
was not set has its default value, the server is built with `Addr` equal to the
value of `addr`, and `ListenAndServeTLS` is called with the values of
`cert-file` and `key-file`. -/
theorem C6_flags_and_server (pd : String → Option Int) (args : List String) (f : FlagSet)
    (h : CommandLine.Parse pd args = .ok f) :
    CommandLine.formal
        = [⟨"addr", .str ":4000"⟩, ⟨"wait", .dur 15000000000⟩, ⟨"cert-file", .str ""⟩,
           ⟨"key-file", .str ""⟩]
    ∧ f.formal.map Flag.name = ["addr", "wait", "cert-file", "key-file"]
    ∧ (∀ n ∈ f.actual, n ∈ ["addr", "wait", "cert-file", "key-file"])
    ∧ (∀ n, ¬ namedIn args n → n ∉ f.actual)
    ∧ ("addr" ∉ f.actual → f.stringVar "addr" = ":4000")
    ∧ ("wait" ∉ f.actual → f.durationVar "wait" = 15 * Second)
    ∧ ("cert-file" ∉ f.actual → f.stringVar "cert-file" = "")
    ∧ ("key-file" ∉ f.actual → f.stringVar "key-file" = "")
    ∧ (step pd Proc.init (.exec args)).phase = .serving
    ∧ (∃ srv, (step pd Proc.init (.exec args)).srv = some srv
        ∧ srv.Addr = f.stringVar "addr")
    ∧ (step pd Proc.init (.exec args)).background
        = [.infoLog ("Test Deploy v1.0.0 listening on " ++ f.stringVar "addr"),
           .ListenAndServeTLS (f.stringVar "addr") (f.stringVar "cert-file")
             (f.stringVar "key-file")] := by
  obtain ⟨h1, _, h3, h4⟩ := Parse_inv pd CommandLine f args h
  have hstep : step pd Proc.init (.exec args) = Proc.init.start pd args := rfl
  refine ⟨rfl, h1, ?_, Parse_named pd args f h, ?_, ?_, ?_, ?_, ?_, ?_, ?_⟩
  · intro n hn
    rcases h4 n hn with hn | hn
    · exact absurd hn (by simp [CommandLine, flagString, flagDuration, FlagSet.empty])
    · exact hn
  · intro hn
    simp only [FlagSet.stringVar, h3 "addr" hn]
    rfl
  · intro hn
    simp only [FlagSet.durationVar, h3 "wait" hn]
    rfl
  · intro hn
    simp only [FlagSet.stringVar, h3 "cert-file" hn]
    rfl
  · intro hn
    simp only [FlagSet.stringVar, h3 "key-file" hn]
    rfl
  · rw [hstep]; simp [Proc.start, h]
  · rw [hstep]; simp [Proc.start, h, mkServer]
  · rw [hstep]; simp [Proc.start, h, mkServer, Proc.init]

/-- Witness of C6: the command line `-addr=:8080`; `wait` is not set and is 15
seconds, and the server is built with the address `:8080`. -/
theorem C6_flags_and_server_witness :
    CommandLine.Parse secondsOnly ["-addr=:8080"] = .ok sampleFlags
    ∧ "wait" ∉ sampleFlags.actual
    ∧ sampleFlags.durationVar "wait" = 15 * Second
    ∧ sampleFlags.stringVar "addr" = ":8080"
    ∧ (∃ srv, (step secondsOnly Proc.init (.exec ["-addr=:8080"])).srv = some srv
        ∧ srv.Addr = sampleFlags.stringVar "addr") :=
  ⟨Parse_sample, by decide,
    (C6_flags_and_server secondsOnly ["-addr=:8080"] sampleFlags Parse_sample).2.2.2.2.2.1
      (by decide),
    by decide,
    (C6_flags_and_server secondsOnly ["-addr=:8080"] sampleFlags Parse_sample).2.2.2.2.2.2.2.2.2.1⟩

/-- C7: once the interrupt has been received the process ends with exit code
0 whatever `srv.Shutdown` returned: from the phase in which `Shutdown` runs,
its return leads to the stopped phase with code 0, the result being dropped (the
step does not depend on it), and `Exit 0` is the last thing the main flow does;
no run of the process is ever stopped with another code. -/
theorem C7_exit_zero (pd : String → Option Int) (p : Proc) (err : Option String)
    (h : p.phase = .shuttingDown) :
    (step pd p (.shutdownReturned err)).phase = .stopped 0
    ∧ (step pd p (.shutdownReturned err)).main
        = p.main ++ [.infoLog "shutting down...", .Exit 0]
    ∧ step pd p (.shutdownReturned err) = step pd p (.shutdownReturned none)
    ∧ (∀ (es : List Event) (c : Nat), (main pd es).phase = .stopped c → c = 0) := by
  obtain ⟨ph, fl, sv, mn, bg⟩ := p
  simp only at h
  subst h
  refine ⟨rfl, rfl, rfl, ?_⟩
  intro es c hc
  have hinv := main_Inv pd es
  unfold Proc.Inv at hinv
  rw [hc] at hinv
  exact hinv.1

/-- Witness of C7: start, interrupt, then `Shutdown` returning a
deadline-exceeded error. -/
theorem C7_exit_zero_witness :
    (main secondsOnly [.exec [], .signal .SIGINT]).phase = .shuttingDown
    ∧ (main secondsOnly
        [.exec [], .signal .SIGINT,
         .shutdownReturned (some "context deadline exceeded")]).phase = .stopped 0 :=
  ⟨by decide,
    (C7_exit_zero secondsOnly (main secondsOnly [.exec [], .signal .SIGINT])
      (some "context deadline exceeded") (by decide)).1⟩

/-- C8: the shutting-down phase is entered only from the serving phase and
only by `SIGINT`; in every run that has reached the shutting-down or the
stopped phase, `srv.Shutdown` has been called exactly once, with the value of
the `wait` flag as timeout (and never more than once in any run); and the
stopped phase is entered only from the shutting-down phase, by the return of
that call.  The value of the `wait` flag is the one parsed from the command
line the process was started with: with `-wait v` or `-wait=v` it is the
duration that `v` denotes, with no argument it is 15 seconds. -/
theorem C8_shutdown_on_interrupt_once (pd : String → Option Int) :
    (∀ (p : Proc) (e : Event), (step pd p e).phase = .shuttingDown →
        p.phase ≠ .shuttingDown → p.phase = .serving ∧ e = .signal .SIGINT)
    ∧ (∀ (es : List Event),
        ((main pd es).phase = .shuttingDown
          ∨ ∃ c, (main pd es).phase = .stopped c) →
        ∃ f, (main pd es).flags = some f
          ∧ shutdownCalls (main pd es).main = [f.durationVar "wait"])
    ∧ (∀ (es : List Event), (shutdownCalls (main pd es).main).length ≤ 1)
    ∧ (∀ (p : Proc) (e : Event) (c : Nat), (step pd p e).phase = .stopped c →
        p.phase ≠ .stopped c → p.phase = .shuttingDown ∧ ∃ r, e = .shutdownReturned r)
    ∧ (∀ (args : List String) (f : FlagSet) (es : List Event),
        CommandLine.Parse pd args = .ok f →
        ((main pd (.exec args :: es)).phase = .shuttingDown
          ∨ ∃ c, (main pd (.exec args :: es)).phase = .stopped c) →
        (main pd (.exec args :: es)).flags = some f
          ∧ shutdownCalls (main pd (.exec args :: es)).main = [f.durationVar "wait"])
    ∧ (∀ (v : String) (d : Int) (es : List Event), pd v = some d →
        ((main pd (.exec ["-wait", v] :: es)).phase = .shuttingDown
          ∨ ∃ c, (main pd (.exec ["-wait", v] :: es)).phase = .stopped c) →
        shutdownCalls (main pd (.exec ["-wait", v] :: es)).main = [d])
    ∧ (∀ (es : List Event),
        ((main pd (.exec [] :: es)).phase = .shuttingDown
          ∨ ∃ c, (main pd (.exec [] :: es)).phase = .stopped c) →
        shutdownCalls (main pd (.exec [] :: es)).main = [15000000000])
    ∧ (∀ (v : String) (d : Int) (es : List Event), pd v = some d →
        ((main pd (.exec ["-wait=" ++ v] :: es)).phase = .shuttingDown
          ∨ ∃ c, (main pd (.exec ["-wait=" ++ v] :: es)).phase = .stopped c) →
        shutdownCalls (main pd (.exec ["-wait=" ++ v] :: es)).main = [d]) := by
  have key : ∀ (es : List Event),
      ((main pd es).phase = .shuttingDown ∨ ∃ c, (main pd es).phase = .stopped c) →
      ∃ f, (main pd es).flags = some f
        ∧ shutdownCalls (main pd es).main = [f.durationVar "wait"] := by
    intro es h
    have hinv := main_Inv pd es
    unfold Proc.Inv at hinv
    rcases h with h | ⟨c, h⟩
    · rw [h] at hinv; exact hinv
    · rw [h] at hinv; exact hinv.2
  have key2 : ∀ (args : List String) (f : FlagSet) (es : List Event),
      CommandLine.Parse pd args = .ok f →
      ((main pd (.exec args :: es)).phase = .shuttingDown
        ∨ ∃ c, (main pd (.exec args :: es)).phase = .stopped c) →
      (main pd (.exec args :: es)).flags = some f
        ∧ shutdownCalls (main pd (.exec args :: es)).main = [f.durationVar "wait"] := by
    intro args f es hf h
    obtain ⟨g, hg, hcalls⟩ := key _ h
    have hfl := main_exec_flags pd args f es hf
    rw [hfl] at hg
    cases hg
    exact ⟨hfl, hcalls⟩
  refine ⟨?_, key, ?_, ?_, key2, ?_, ?_, ?_⟩
  rotate_left 3
  · intro v d es hv h
    obtain ⟨f, hf, hd⟩ := Parse_wait pd v d hv
    rw [(key2 _ f es hf h).2, hd]
  · intro es h
    have hf : CommandLine.Parse pd [] = .ok CommandLine := rfl
    rw [(key2 _ _ es hf h).2]
    rfl
  · intro v d es hv h
    obtain ⟨f, hf, hd⟩ := Parse_wait_eq pd v d hv
    rw [(key2 _ f es hf h).2, hd]
  · intro p e h hne
    obtain ⟨ph, fl, sv, mn, bg⟩ := p
    cases ph with
    | starting =>
      cases e with
      | exec args =>
        simp only [step, Proc.start] at h
        cases hp : CommandLine.Parse pd args <;> simp [hp] at h
      | _ => simp [step] at h
    | serving =>
      cases e with
      | signal s => cases s <;> first | exact ⟨rfl, rfl⟩ | simp [step] at h
      | _ => simp [step, Proc.listenFailed] at h
    | shuttingDown => exact absurd rfl hne
    | _ => cases e <;> simp [step] at h
  · intro es
    have hinv := main_Inv pd es
    unfold Proc.Inv at hinv
    cases hph : (main pd es).phase with
    | starting => rw [hph] at hinv; simp [hinv.1, shutdownCalls]
    | usage c => rw [hph] at hinv; simp [hinv]
    | serving => rw [hph] at hinv; simp [hinv.2]
    | shuttingDown => rw [hph] at hinv; obtain ⟨f, _, h2⟩ := hinv; simp [h2]
    | stopped c => rw [hph] at hinv; obtain ⟨_, f, _, h2⟩ := hinv; simp [h2]
    | killed s => rw [hph] at hinv; exact hinv
  · intro p e c h hne
    obtain ⟨ph, fl, sv, mn, bg⟩ := p
    cases ph with
    | starting =>
      cases e with
      | exec args =>
        simp only [step, Proc.start] at h
        cases hp : CommandLine.Parse pd args <;> simp [hp] at h
      | _ => simp [step] at h
    | serving =>
      cases e with
      | signal s => cases s <;> cases fl <;> simp [step, Proc.interrupt] at h
      | _ => simp [step, Proc.listenFailed] at h
    | shuttingDown =>
      cases e with
      | signal s => cases s <;> simp [step] at h
      | shutdownReturned r => exact ⟨rfl, r, rfl⟩
      | _ => simp [step, Proc.listenFailed] at h
    | stopped c2 =>
      have : c2 = c := by cases e <;> simpa [step] using h
      exact absurd (by rw [this]) hne
    | _ => cases e <;> simp [step] at h

/-- Witness of C8: a run started with `-wait 3s` and interrupted once calls
`Shutdown` once, with a timeout of 3 seconds. -/
theorem C8_shutdown_on_interrupt_once_witness :
    (main secondsOnly [.exec ["-wait", "3s"], .signal .SIGINT]).phase = .shuttingDown
    ∧ shutdownCalls (main secondsOnly [.exec ["-wait", "3s"], .signal .SIGINT]).main
        = [3000000000] :=
  ⟨by decide,
    (C8_shutdown_on_interrupt_once secondsOnly).2.2.2.2.2.1 "3s" 3000000000
      [.signal .SIGINT] (by decide) (Or.inl (by decide))⟩

/-- C9: the return of `ListenAndServeTLS` with an error is only written to the
error log by the goroutine.  It changes nothing of the main flow (phase, flags,
server, effects); while the process serves or shuts down it adds one line to
the goroutine's log; and any run has the same main flow as the run without the
listener failures, so also after a failure an interrupt leads through the same
`Shutdown` call to exit code 0. -/
theorem C9_listen_failure_only_logged (pd : String → Option Int) (p : Proc) (err : String) :
    (step pd p (.listenReturned err)).mainView = p.mainView
    ∧ ((p.phase = .serving ∨ p.phase = .shuttingDown) →
        (step pd p (.listenReturned err)).background = p.background ++ [.errorLog err])
    ∧ (∀ es : List Event,
        (run pd p es).mainView
          = (run pd p (es.filter (fun e => !e.isListenReturned))).mainView)
    ∧ (∀ (args : List String) (r : Option String),
        (main pd
            [.exec args, .listenReturned err, .signal .SIGINT, .shutdownReturned r]).mainView
          = (main pd [.exec args, .signal .SIGINT, .shutdownReturned r]).mainView)
    ∧ (∀ (args : List String) (f : FlagSet) (r : Option String),
        CommandLine.Parse pd args = .ok f →
        (main pd
            [.exec args, .listenReturned err, .signal .SIGINT, .shutdownReturned r]).phase
          = .stopped 0) := by
  refine ⟨step_mainView_listen pd p err, ?_, ?_, ?_, ?_⟩
  · intro h
    obtain ⟨ph, fl, sv, mn, bg⟩ := p
    simp only at h
    rcases h with rfl | rfl <;> rfl
  · intro es
    exact run_mainView_filter pd es p p rfl
  · intro args r
    exact run_mainView_filter pd _ Proc.init Proc.init rfl
  · intro args f r hf
    simp [main, run, step, Proc.start, hf, Proc.init, Proc.listenFailed, Proc.interrupt,
      Proc.afterShutdown]

/-- Witness of C9: the listener fails on the default, empty certificate and
key files; the run ends as it does without the failure. -/
theorem C9_listen_failure_only_logged_witness :
    (main secondsOnly
        [.exec [], .listenReturned "open : no such file or directory", .signal .SIGINT,
         .shutdownReturned none]).mainView
      = (main secondsOnly [.exec [], .signal .SIGINT, .shutdownReturned none]).mainView
    ∧ (main secondsOnly
        [.exec [], .listenReturned "open : no such file or directory", .signal .SIGINT,
         .shutdownReturned none]).phase = .stopped 0 :=
  ⟨(C9_listen_failure_only_logged secondsOnly Proc.init
      "open : no such file or directory").2.2.2.1 [] none,
   (C9_listen_failure_only_logged secondsOnly Proc.init
      "open : no such file or directory").2.2.2.2 [] CommandLine none (by decide)⟩

/-! ## The definitions evaluated on concrete inputs -/

theorem eval_Clean :
    Clean "/a//b".data = "/a/b".data
    ∧ Clean "/static/../secret".data = "/secret".data
    ∧ Clean "a/../../b/./c/".data = "../b/c".data
    ∧ Clean "".data = ".".data
    ∧ cleanPath "/static/".data = "/static/".data
    ∧ cleanPath "/static/css/../app.css".data = "/static/app.css".data := by
  decide

theorem eval_Clean_table :
    cleanTable.all (fun t => Clean t.1.data = t.2.data) = true := by
  decide

theorem eval_ServeHTTP :
    routes.ServeHTTP (mkReq "GET" "/") = .serve .home
    ∧ routes.ServeHTTP (mkReq "POST" "/") = .methodNotAllowed
    ∧ routes.ServeHTTP (mkReq "GET" "/unknown") = .notFound
    ∧ routes.ServeHTTP (mkReq "GET" "/static") = .notFound
    ∧ routes.ServeHTTP (mkReq "GET" "/static/app.css") = .serve staticHandler
    ∧ routes.ServeHTTP (mkReq "GET" "/a//b") = .movedPermanently "/a/b" := by
  decide

theorem eval_respond :
    Router.respond sampleEnv routes (mkReq "GET" "/static/app.css")
      = .returned ⟨some 200, [], "body \x7b\x7d".data⟩
    ∧ Router.respond sampleEnv routes (mkReq "GET" "/static/nope.css")
      = .returned (NotFound .fresh)
    ∧ Router.respond ⟨commentEngine, emptyFS, plainSender⟩ routes (mkReq "GET" "/")
      = .panicked .fresh
    ∧ Dir.fullName "./ui/static/".data "/../../etc/passwd".data
      = "ui/static/etc/passwd".data := by
  decide

theorem eval_Parse :
    (CommandLine.Parse secondsOnly ["-addr=:8080", "--wait", "30s", "x"]).toOption.map
        (fun f => (f.stringVar "addr", f.durationVar "wait", f.stringVar "cert-file",
          f.actual, f.args))
      = some (":8080", 30000000000, "", ["addr", "wait"], ["x"])
    ∧ CommandLine.Parse secondsOnly ["-x"] = .error (.notDefined "x")
    ∧ CommandLine.Parse secondsOnly ["-h"] = .error .help
    ∧ CommandLine.Parse secondsOnly ["-addr"] = .error (.needsArgument "addr")
    ∧ CommandLine.Parse secondsOnly ["-wait=abc"] = .error (.invalidValue "abc" "wait")
    ∧ CommandLine.Parse secondsOnly ["---x"] = .error (.badSyntax "---x")
    ∧ (CommandLine.Parse secondsOnly ["--", "-addr=1"]).toOption.map (fun f => f.args)
      = some ["-addr=1"] := by
  decide

theorem eval_run :
    (main secondsOnly
        [.exec ["-wait=3s"], .listenReturned "open : no such file or directory",
         .signal .SIGINT, .shutdownReturned (some "context deadline exceeded")]).main
      = [.Notify .SIGINT, .Shutdown 3000000000, .infoLog "shutting down...", .Exit 0]
    ∧ (main secondsOnly [.exec [], .signal .SIGTERM]).phase = .killed .SIGTERM
    ∧ (main secondsOnly [.exec ["-nope"]]).phase = .usage 2 := by
  decide

end TestDeploy
